import Mathlib

/-!
# WAL segment addressing and WAL file names

A shallow embedding of `src/include/access/xlogfilesize.h` and
`src/include/access/xlogfilepaths.h`, followed by theorems about it.

Conventions of the embedding:

* `uint64` / `uint32` values are natural numbers; every operation that can
  wrap carries an explicit `wrap64` / `wrap32`.
* `int wal_segsz_bytes` is an `Int`; where C converts it to `uint64` because
  the other operand is unsigned 64-bit, the embedding applies `intToU64`.
* a C string is the list of its characters before the terminating NUL.
* output parameters become results; a destination that `sscanf` leaves
  untouched keeps the value passed in for it.
-/

namespace XLog

/-! ## Machine integers -/

/-- Result of an unsigned 64-bit operation: the mathematical value modulo 2^64. -/
def wrap64 (x : Nat) : Nat := x % 2 ^ 64

/-- The cast `(uint32) x` of an unsigned value. -/
def wrap32 (x : Nat) : Nat := x % 2 ^ 32

/-- Conversion of an `int` operand to `uint64` (usual arithmetic conversions). -/
def intToU64 (x : Int) : Nat := (x % 2 ^ 64).toNat

/-! ## xlogfilesize.h -/

/-- Macro `#define WalSegMinSize 1024 * 1024` -/
def WalSegMinSize : Int := 1024 * 1024

/-- Macro `#define WalSegMaxSize 1024 * 1024 * 1024` -/
def WalSegMaxSize : Int := 1024 * 1024 * 1024

/-- Macro `#define IsPowerOf2(x) (x > 0 && ((x) & ((x)-1)) == 0)` on an `int`.
The `&&` short-circuits, so `x - 1` is only formed for positive `x`. -/
def IsPowerOf2 (x : Int) : Bool :=
  decide (x > 0) && (Int.land x (x - 1) == 0)

/-- Macro `#define IsValidWalSegSize(size)
  (IsPowerOf2(size) && ((size) >= WalSegMinSize && (size) <= WalSegMaxSize))` -/
def IsValidWalSegSize (size : Int) : Bool :=
  IsPowerOf2 size && (decide (size ≥ WalSegMinSize) && decide (size ≤ WalSegMaxSize))

/-- Macro `#define XLogSegmentsPerXLogId(wal_segsz_bytes)
  (UINT64CONST(0x100000000) / (wal_segsz_bytes))` -/
def XLogSegmentsPerXLogId (wal_segsz_bytes : Int) : Nat :=
  0x100000000 / intToU64 wal_segsz_bytes

/-- Macro `XLogSegNoOffsetToRecPtr`: `(dest) = (segno) * (wal_segsz_bytes) + (offset)` with `uint64` operands. -/
def XLogSegNoOffsetToRecPtr (segno offset : Nat) (wal_segsz_bytes : Int) : Nat :=
  wrap64 (wrap64 (segno * intToU64 wal_segsz_bytes) + offset)

/-- Macro `XLByteToSeg`: `logSegNo = (xlrp) / (wal_segsz_bytes)`. -/
def XLByteToSeg (xlrp : Nat) (wal_segsz_bytes : Int) : Nat :=
  xlrp / intToU64 wal_segsz_bytes

/-- Macro `XLByteToPrevSeg`: `logSegNo = ((xlrp) - 1) / (wal_segsz_bytes)`; the subtraction is unsigned
64-bit, so position 0 wraps to 2^64 - 1. -/
def XLByteToPrevSeg (xlrp : Nat) (wal_segsz_bytes : Int) : Nat :=
  wrap64 (xlrp + 2 ^ 64 - 1) / intToU64 wal_segsz_bytes

/-- Macro `XLogSegmentOffset`: `((xlogptr) & ((wal_segsz_bytes) - 1))`; the decrement happens in `int`
before the conversion to `uint64`. -/
def XLogSegmentOffset (xlogptr : Nat) (wal_segsz_bytes : Int) : Nat :=
  xlogptr &&& intToU64 (wal_segsz_bytes - 1)

/-- Macro `XLogMBVarToSegs`: `((mbvar) / ((wal_segsz_bytes) / (1024 * 1024)))` on `int` operands
(C division truncates toward zero). -/
def XLogMBVarToSegs (mbvar : Int) (wal_segsz_bytes : Int) : Int :=
  Int.tdiv mbvar (Int.tdiv wal_segsz_bytes (1024 * 1024))

/-- Macro `XLByteInSeg`: `(((xlrp) / (wal_segsz_bytes)) == (logSegNo))`. -/
def XLByteInSeg (xlrp logSegNo : Nat) (wal_segsz_bytes : Int) : Bool :=
  xlrp / intToU64 wal_segsz_bytes == logSegNo

/-- Macro `XLByteInPrevSeg`: `((((xlrp) - 1) / (wal_segsz_bytes)) == (logSegNo))`. -/
def XLByteInPrevSeg (xlrp logSegNo : Nat) (wal_segsz_bytes : Int) : Bool :=
  wrap64 (xlrp + 2 ^ 64 - 1) / intToU64 wal_segsz_bytes == logSegNo

/-! ## C library functions used by xlogfilepaths.h -/

/-- Function `strlen`: number of characters before the terminating NUL. -/
def strlen (s : List Char) : Nat := s.length

/-- Function `strspn(s, accept)`: length of the longest initial part of `s` made only of
characters of `accept`. -/
def strspn (s accept : List Char) : Nat :=
  (s.takeWhile (fun c => decide (c ∈ accept))).length

/-- Function `strcmp`: sign of the first differing character, characters compared by code. -/
def strcmp : List Char → List Char → Int
  | [], [] => 0
  | [], _ :: _ => -1
  | _ :: _, [] => 1
  | a :: as, b :: bs =>
    if a.toNat < b.toNat then -1
    else if b.toNat < a.toNat then 1
    else strcmp as bs

/-- Function `snprintf(buf, size, ...)` stores at most `size - 1` characters of the
formatted text `out`. -/
def snprintf (size : Nat) (out : List Char) : List Char := out.take (size - 1)

/-- The digit table of the `X` conversion. -/
def upperHexDigits : List Char := "0123456789ABCDEF".toList

/-- Digit character for a value below 16. -/
def upperHexDigit (d : Nat) : Char := upperHexDigits.getD d '0'

/-- Digit generation of `printf`: `do *--p = digits[v % 16]; while ((v /= 16) != 0)`.
The first argument bounds the number of iterations. -/
def fmtXAux : Nat → Nat → List Char → List Char
  | 0, _, acc => acc
  | fuel + 1, v, acc =>
    if v / 16 = 0 then upperHexDigit (v % 16) :: acc
    else fmtXAux fuel (v / 16) (upperHexDigit (v % 16) :: acc)

/-- Conversion `%X` of an unsigned value: its upper-case hexadecimal digits, at least one. -/
def fmtX (v : Nat) : List Char := fmtXAux (v + 1) v []

/-- Conversion `%08X`: `%X` padded on the left with zeros to a minimum width of 8. -/
def fmt08X (v : Nat) : List Char :=
  List.replicate (8 - (fmtX v).length) '0' ++ fmtX v

/-- Function `isspace` in the C locale: space, and the control characters 9 to 13. -/
def isspace (c : Char) : Bool :=
  c.toNat == 32 || (decide (9 ≤ c.toNat) && decide (c.toNat ≤ 13))

/-- Value of a hexadecimal digit as `sscanf` accepts it (either case). -/
def hexDigitValue (c : Char) : Option Nat :=
  if 48 ≤ c.toNat ∧ c.toNat ≤ 57 then some (c.toNat - 48)
  else if 65 ≤ c.toNat ∧ c.toNat ≤ 70 then some (c.toNat - 55)
  else if 97 ≤ c.toNat ∧ c.toNat ≤ 102 then some (c.toNat - 87)
  else none

/-- Reads at most `w` hexadecimal digits; returns the accumulated value, the
number of digits read and the unread input. -/
def scanHexDigits : Nat → List Char → Nat → Nat → Nat × Nat × List Char
  | 0, s, acc, n => (acc, n, s)
  | _ + 1, [], acc, n => (acc, n, [])
  | w + 1, c :: cs, acc, n =>
    match hexDigitValue c with
    | some d => scanHexDigits w cs (acc * 16 + d) (n + 1)
    | none => (acc, n, c :: cs)

/-- Optional sign of a scanned integer; it counts against the field width. -/
def scanSign (w : Nat) (s : List Char) : Bool × Nat × List Char :=
  match s with
  | c :: t =>
    if 1 ≤ w ∧ (c = '+' ∨ c = '-') then (decide (c = '-'), w - 1, t) else (false, w, s)
  | [] => (false, w, s)

/-- Optional `0x` / `0X` of a scanned hexadecimal integer; it counts against the
field width.  The first component tells whether it was read. -/
def scanHexLead (w : Nat) (s : List Char) : Bool × Nat × List Char :=
  match s with
  | c0 :: c1 :: t =>
    if 2 ≤ w ∧ c0 = '0' ∧ (c1 = 'x' ∨ c1 = 'X') then (true, w - 2, t) else (false, w, s)
  | _ => (false, w, s)

/-- One `%<width>X` directive of `sscanf` storing into an `unsigned int`: skip
white space, then read an optionally signed hexadecimal integer of at most
`width` characters.  `none` is a failed directive (no digit was read); otherwise
the stored value and the unread input.  The `0` of a `0x` counts as a digit
read, so a `0x` that no digit follows stores 0 and both characters are
consumed, which is what the C library the code runs on does. -/
def scanX (width : Nat) (s : List Char) : Option (Nat × List Char) :=
  let sg := scanSign width (s.dropWhile isspace)
  let px := scanHexLead sg.2.1 sg.2.2
  let ds := scanHexDigits px.2.1 px.2.2 0 (if px.1 then 1 else 0)
  if ds.2.1 = 0 then none
  else some (if sg.1 then wrap32 (2 ^ 32 - wrap32 ds.1) else wrap32 ds.1, ds.2.2)

/-- Test of the unread input at which a `%08X` directive reads nothing more and
the next one reads nothing at all: the end of the string, or a character that
is neither a hexadecimal digit of either case, nor white space, nor a sign, nor
`x` or `X`. -/
def scanStops (r : List Char) : Bool :=
  match r with
  | [] => true
  | c :: _ =>
    (hexDigitValue c).isNone && !isspace c &&
      !decide (c = '+' ∨ c = '-') && !decide (c = 'x' ∨ c = 'X')

/-- Destinations of `sscanf(fname, "%08X%08X%08X", tli, &log, &seg)` after the
call, with the number of directives that converted. -/
structure Scanned where
  converted : Nat
  tli : Nat
  log : Nat
  seg : Nat
  deriving DecidableEq

/-- Call `sscanf(fname, "%08X%08X%08X", tli, &log, &seg)`: the directives run in
order and the scan stops at the first that fails; a destination that was not
reached keeps the value `tli`, `log`, `seg` it had before the call. -/
def sscanf_08X_08X_08X (fname : List Char) (tli log seg : Nat) : Scanned :=
  match scanX 8 fname with
  | none => ⟨0, tli, log, seg⟩
  | some (a, r1) =>
    match scanX 8 r1 with
    | none => ⟨1, a, log, seg⟩
    | some (b, r2) =>
      match scanX 8 r2 with
      | none => ⟨2, a, b, seg⟩
      | some (c, _) => ⟨3, a, b, c⟩

/-! ## xlogfilepaths.h -/

/-- Macro `#define XLOGDIR "pg_wal"` -/
def XLOGDIR : List Char := "pg_wal".toList

/-- Macro `#define MAXFNAMELEN 64` -/
def MAXFNAMELEN : Nat := 64

/-- Macro `#define XLOG_FNAME_LEN 24` -/
def XLOG_FNAME_LEN : Nat := 24

/-- Call `snprintf(path, MAXPGPATH, XLOGDIR "/archive_status/%s%s", xlog, suffix)`.
`MAXPGPATH` is defined outside these headers and is taken as a parameter. -/
def StatusFilePath (MAXPGPATH : Nat) (xlog suffix : List Char) : List Char :=
  snprintf MAXPGPATH (XLOGDIR ++ "/archive_status/".toList ++ xlog ++ suffix)

/-- Timeline history file name test. -/
def IsTLHistoryFileName (fname : List Char) : Bool :=
  decide (strlen fname = 8 + strlen ".history".toList) &&
  decide (strspn fname "0123456789ABCDEF".toList = 8) &&
  decide (strcmp (fname.drop 8) ".history".toList = 0)

/-- Decoder of a segment file name.  The result is `(*tli, *logSegNo)` after the
call.  `tli0` is what `*tli` held before the call, `log0` and `seg0` stand for
the indeterminate contents of the uninitialised locals `log` and `seg`; the
value returned by `sscanf` is not looked at. -/
def XLogFromFileName (fname : List Char) (wal_segsz_bytes : Int)
    (tli0 log0 seg0 : Nat) : Nat × Nat :=
  let r := sscanf_08X_08X_08X fname tli0 log0 seg0
  (r.tli, wrap64 (wrap64 (r.log * XLogSegmentsPerXLogId wal_segsz_bytes) + r.seg))

/-- Call `snprintf(path, MAXPGPATH, XLOGDIR "/%08X%08X%08X", tli, (uint32) (logSegNo / n),
(uint32) (logSegNo % n))` with `n = XLogSegmentsPerXLogId(wal_segsz_bytes)`. -/
def XLogFilePath (MAXPGPATH : Nat) (tli logSegNo : Nat) (wal_segsz_bytes : Int) : List Char :=
  snprintf MAXPGPATH
    (XLOGDIR ++ "/".toList ++ fmt08X tli ++
      fmt08X (wrap32 (logSegNo / XLogSegmentsPerXLogId wal_segsz_bytes)) ++
      fmt08X (wrap32 (logSegNo % XLogSegmentsPerXLogId wal_segsz_bytes)))

/-- Call `snprintf(fname, MAXFNAMELEN, "%08X%08X%08X", tli, (uint32) (logSegNo / n),
(uint32) (logSegNo % n))` with `n = XLogSegmentsPerXLogId(wal_segsz_bytes)`. -/
def XLogFileName (tli logSegNo : Nat) (wal_segsz_bytes : Int) : List Char :=
  snprintf MAXFNAMELEN
    (fmt08X tli ++
      fmt08X (wrap32 (logSegNo / XLogSegmentsPerXLogId wal_segsz_bytes)) ++
      fmt08X (wrap32 (logSegNo % XLogSegmentsPerXLogId wal_segsz_bytes)))

/-- Call `snprintf(fname, MAXFNAMELEN, "%08X%08X%08X", tli, log, seg)` -/
def XLogFileNameById (tli log seg : Nat) : List Char :=
  snprintf MAXFNAMELEN (fmt08X tli ++ fmt08X log ++ fmt08X seg)

/-- Segment file name test. -/
def IsXLogFileName (fname : List Char) : Bool :=
  decide (strlen fname = XLOG_FNAME_LEN) &&
  decide (strspn fname "0123456789ABCDEF".toList = XLOG_FNAME_LEN)

/-- Test for a segment file name with the `.partial` suffix. -/
def IsPartialXLogFileName (fname : List Char) : Bool :=
  decide (strlen fname = XLOG_FNAME_LEN + strlen ".partial".toList) &&
  decide (strspn fname "0123456789ABCDEF".toList = XLOG_FNAME_LEN) &&
  decide (strcmp (fname.drop XLOG_FNAME_LEN) ".partial".toList = 0)

/-- Call `snprintf(fname, MAXFNAMELEN, "%08X.history", tli)` -/
def TLHistoryFileName (tli : Nat) : List Char :=
  snprintf MAXFNAMELEN (fmt08X tli ++ ".history".toList)

/-- Call `snprintf(path, MAXPGPATH, XLOGDIR "/%08X.history", tli)` -/
def TLHistoryFilePath (MAXPGPATH : Nat) (tli : Nat) : List Char :=
  snprintf MAXPGPATH (XLOGDIR ++ "/".toList ++ fmt08X tli ++ ".history".toList)

/-- Call `snprintf(fname, MAXFNAMELEN, "%08X%08X%08X.%08X.backup", tli, (uint32) (logSegNo / n),
(uint32) (logSegNo % n), (uint32) (XLogSegmentOffset(startpoint, wal_segsz_bytes)))` -/
def BackupHistoryFileName (tli logSegNo startpoint : Nat) (wal_segsz_bytes : Int) : List Char :=
  snprintf MAXFNAMELEN
    (fmt08X tli ++
      fmt08X (wrap32 (logSegNo / XLogSegmentsPerXLogId wal_segsz_bytes)) ++
      fmt08X (wrap32 (logSegNo % XLogSegmentsPerXLogId wal_segsz_bytes)) ++
      ".".toList ++
      fmt08X (wrap32 (XLogSegmentOffset startpoint wal_segsz_bytes)) ++
      ".backup".toList)

/-- Backup history file name test.  `fname + strlen(fname) - strlen(".backup")`
is the part of `fname` that starts 7 characters before its end. -/
def IsBackupHistoryFileName (fname : List Char) : Bool :=
  decide (strlen fname > XLOG_FNAME_LEN) &&
  decide (strspn fname "0123456789ABCDEF".toList = XLOG_FNAME_LEN) &&
  decide (strcmp (fname.drop (strlen fname - strlen ".backup".toList)) ".backup".toList = 0)

/-- Same format as `BackupHistoryFileName`, after `XLOGDIR "/"`, bounded by `MAXPGPATH`. -/
def BackupHistoryFilePath (MAXPGPATH : Nat) (tli logSegNo startpoint : Nat)
    (wal_segsz_bytes : Int) : List Char :=
  snprintf MAXPGPATH
    (XLOGDIR ++ "/".toList ++ fmt08X tli ++
      fmt08X (wrap32 (logSegNo / XLogSegmentsPerXLogId wal_segsz_bytes)) ++
      fmt08X (wrap32 (logSegNo % XLogSegmentsPerXLogId wal_segsz_bytes)) ++
      ".".toList ++
      fmt08X (wrap32 (XLogSegmentOffset startpoint wal_segsz_bytes)) ++
      ".backup".toList)

/-! ## Fixed-width hexadecimal fields -/

/-- The `w` low hexadecimal digits of `v`, most significant first: the text a
zero-padded field of width `w` holds when `v` fits in it. -/
def hexField : Nat → Nat → List Char
  | 0, _ => []
  | w + 1, v => upperHexDigit (v / 16 ^ w % 16) :: hexField w v

/-! ## Facts about valid segment sizes -/

theorem land_pred_eq_zero_iff (n : Nat) (hn : 0 < n) :
    n &&& (n - 1) = 0 ↔ ∃ k, n = 2 ^ k := by
  constructor
  · induction n using Nat.strong_induction_on with
    | _ n ih =>
      intro h
      by_cases h1 : n = 1
      · exact ⟨0, by simp [h1]⟩
      · have hdiv : (n &&& (n - 1)) / 2 = n / 2 &&& (n - 1) / 2 := Nat.and_div_two
        rw [h] at hdiv
        rcases Nat.even_or_odd n with he | ho
        · obtain ⟨m, hm⟩ := he
          have hm1 : n / 2 = m := by omega
          have hm2 : (n - 1) / 2 = m - 1 := by omega
          rw [hm1, hm2] at hdiv
          obtain ⟨k, hk⟩ := ih m (by omega) (by omega) hdiv.symm
          exact ⟨k + 1, by rw [pow_succ]; omega⟩
        · obtain ⟨m, hm⟩ := ho
          have hm1 : n / 2 = m := by omega
          have hm2 : (n - 1) / 2 = m := by omega
          rw [hm1, hm2, Nat.and_self] at hdiv
          omega
  · rintro ⟨k, rfl⟩
    rw [Nat.and_pow_two_sub_one_eq_mod, Nat.mod_self]

theorem isPowerOf2_iff (x : Int) :
    IsPowerOf2 x = true ↔ ∃ k : Nat, x = 2 ^ k := by
  unfold IsPowerOf2
  rcases x with n | n
  · simp only [Int.ofNat_eq_coe, gt_iff_lt, Bool.and_eq_true, decide_eq_true_eq, beq_iff_eq]
    constructor
    · rintro ⟨hpos, hland⟩
      have hn : 0 < n := by exact_mod_cast hpos
      have hsub : ((n : Int) - 1) = ((n - 1 : Nat) : Int) := by omega
      rw [hsub] at hland
      have h0 : n &&& (n - 1) = 0 := by
        have : ((n &&& (n - 1) : Nat) : Int) = 0 := hland
        exact_mod_cast this
      obtain ⟨k, hk⟩ := (land_pred_eq_zero_iff n hn).1 h0
      exact ⟨k, by rw [hk]; push_cast; rfl⟩
    · rintro ⟨k, hk⟩
      have hnk : n = 2 ^ k := by exact_mod_cast hk
      have hn : 0 < n := by rw [hnk]; positivity
      refine ⟨by exact_mod_cast hn, ?_⟩
      have hsub : ((n : Int) - 1) = ((n - 1 : Nat) : Int) := by omega
      rw [hsub]
      have h0 : n &&& (n - 1) = 0 := (land_pred_eq_zero_iff n hn).2 ⟨k, hnk⟩
      show ((n &&& (n - 1) : Nat) : Int) = 0
      rw [h0]; rfl
  · simp only [gt_iff_lt, Bool.and_eq_true, decide_eq_true_eq, beq_iff_eq]
    constructor
    · rintro ⟨hpos, -⟩
      exact absurd hpos (by simp [Int.negSucc_lt_zero])
    · rintro ⟨k, hk⟩
      have : (0 : Int) < 2 ^ k := by positivity
      rw [← hk] at this
      exact absurd this (by simp [Int.negSucc_lt_zero])

theorem valid_iff_pow (size : Int) :
    IsValidWalSegSize size = true ↔ ∃ k : Nat, 20 ≤ k ∧ k ≤ 30 ∧ size = 2 ^ k := by
  unfold IsValidWalSegSize WalSegMinSize WalSegMaxSize
  rw [Bool.and_eq_true, isPowerOf2_iff]
  simp only [Bool.and_eq_true, decide_eq_true_eq, ge_iff_le]
  constructor
  · rintro ⟨⟨k, rfl⟩, hlo, hhi⟩
    refine ⟨k, ?_, ?_, rfl⟩
    · by_contra hk
      have hk19 : k ≤ 19 := by omega
      have : (2 : Int) ^ k ≤ 2 ^ 19 := pow_le_pow_right₀ (by norm_num) hk19
      norm_num at this hlo
      omega
    · by_contra hk
      have hk31 : 31 ≤ k := by omega
      have : (2 : Int) ^ 31 ≤ 2 ^ k := pow_le_pow_right₀ (by norm_num) hk31
      norm_num at this hhi
      omega
  · rintro ⟨k, hlo, hhi, rfl⟩
    refine ⟨⟨k, rfl⟩, ?_, ?_⟩
    · have : (2 : Int) ^ 20 ≤ 2 ^ k := pow_le_pow_right₀ (by norm_num) hlo
      norm_num at this ⊢
      exact this
    · have : (2 : Int) ^ k ≤ 2 ^ 30 := pow_le_pow_right₀ (by norm_num) hhi
      norm_num at this ⊢
      exact this

theorem intToU64_of_lt (n : Nat) (hn : n < 2 ^ 64) : intToU64 (n : Int) = n := by
  unfold intToU64
  have h : ((n : Int) % 2 ^ 64) = (n : Int) :=
    Int.emod_eq_of_lt (by positivity) (by exact_mod_cast hn)
  rw [h, Int.toNat_natCast]

theorem two_pow_le_30 (k : Nat) (hk : k ≤ 30) : 2 ^ k ≤ 2 ^ 30 :=
  Nat.pow_le_pow_right (by norm_num) hk

theorem intToU64_pow (k : Nat) (hk : k ≤ 30) : intToU64 ((2 : Int) ^ k) = 2 ^ k := by
  have h := intToU64_of_lt (2 ^ k) (by have := two_pow_le_30 k hk; omega)
  push_cast at h
  exact h

theorem intToU64_pow_pred (k : Nat) (hk : k ≤ 30) :
    intToU64 ((2 : Int) ^ k - 1) = 2 ^ k - 1 := by
  have hpos : 0 < 2 ^ k := by positivity
  have h := intToU64_of_lt (2 ^ k - 1) (by have := two_pow_le_30 k hk; omega)
  rw [Nat.cast_sub hpos] at h
  push_cast at h
  exact h

theorem toNat_pow (k : Nat) : ((2 : Int) ^ k).toNat = 2 ^ k := by
  have h : ((2 : Int) ^ k) = ((2 ^ k : Nat) : Int) := by push_cast; rfl
  rw [h, Int.toNat_natCast]

theorem segsPerXLogId_pow (k : Nat) (hk : k ≤ 30) :
    XLogSegmentsPerXLogId ((2 : Int) ^ k) = 2 ^ (32 - k) := by
  unfold XLogSegmentsPerXLogId
  rw [intToU64_pow k hk]
  have h : (0x100000000 : Nat) = 2 ^ 32 := by norm_num
  rw [h, Nat.pow_div (by omega) (by norm_num)]

theorem segmentOffset_pow (p k : Nat) (hk : k ≤ 30) :
    XLogSegmentOffset p ((2 : Int) ^ k) = p % 2 ^ k := by
  unfold XLogSegmentOffset
  rw [intToU64_pow_pred k hk, Nat.and_pow_two_sub_one_eq_mod]

theorem wrap64_of_lt (x : Nat) (h : x < 2 ^ 64) : wrap64 x = x := Nat.mod_eq_of_lt h

theorem wrap32_of_lt (x : Nat) (h : x < 2 ^ 32) : wrap32 x = x := Nat.mod_eq_of_lt h

theorem wrap32_lt (x : Nat) : wrap32 x < 2 ^ 32 := Nat.mod_lt _ (by norm_num)

/-! ## Formatting and scanning hexadecimal fields -/

theorem upperHexDigit_mem (d : Nat) (hd : d < 16) :
    upperHexDigit d ∈ "0123456789ABCDEF".toList := by
  interval_cases d <;> decide

theorem hexDigitValue_upperHexDigit (d : Nat) (hd : d < 16) :
    hexDigitValue (upperHexDigit d) = some d := by
  interval_cases d <;> decide

theorem isspace_upperHexDigit (d : Nat) (hd : d < 16) :
    isspace (upperHexDigit d) = false := by
  interval_cases d <;> decide

theorem upperHexDigit_not_sign (d : Nat) (hd : d < 16) :
    ¬ (upperHexDigit d = '+' ∨ upperHexDigit d = '-') := by
  interval_cases d <;> decide

theorem upperHexDigit_not_x (d : Nat) (hd : d < 16) :
    ¬ (upperHexDigit d = 'x' ∨ upperHexDigit d = 'X') := by
  interval_cases d <;> decide

theorem hexField_length (w v : Nat) : (hexField w v).length = w := by
  induction w with
  | zero => rfl
  | succ w ih => simp [hexField, ih]

theorem hexField_mem (w v : Nat) :
    ∀ c ∈ hexField w v, c ∈ "0123456789ABCDEF".toList := by
  induction w with
  | zero => intro c hc; simp [hexField] at hc
  | succ w ih =>
    intro c hc
    simp only [hexField, List.mem_cons] at hc
    rcases hc with rfl | hc
    · exact upperHexDigit_mem _ (Nat.mod_lt _ (by norm_num))
    · exact ih c hc

theorem hexField_succ_eq (n v : Nat) :
    hexField (n + 1) v = hexField n (v / 16) ++ [upperHexDigit (v % 16)] := by
  induction n with
  | zero => simp [hexField]
  | succ n ih =>
    have hdiv : v / 16 ^ (n + 1) = v / 16 / 16 ^ n := by
      rw [pow_succ, Nat.mul_comm, Nat.div_div_eq_div_mul]
    calc hexField (n + 1 + 1) v
        = upperHexDigit (v / 16 ^ (n + 1) % 16) :: hexField (n + 1) v := rfl
      _ = upperHexDigit (v / 16 / 16 ^ n % 16)
            :: (hexField n (v / 16) ++ [upperHexDigit (v % 16)]) := by rw [ih, hdiv]
      _ = hexField (n + 1) (v / 16) ++ [upperHexDigit (v % 16)] := rfl

theorem hexField_pad (w n v : Nat) (hv : v < 16 ^ n) (hn : n ≤ w) :
    hexField w v = List.replicate (w - n) '0' ++ hexField n v := by
  induction w with
  | zero =>
    have : n = 0 := by omega
    subst this; rfl
  | succ w ih =>
    by_cases hnw : n = w + 1
    · subst hnw; simp
    · have hle : n ≤ w := by omega
      have hpow : 16 ^ n ≤ 16 ^ w := Nat.pow_le_pow_right (by norm_num) hle
      have hz : v / 16 ^ w = 0 := Nat.div_eq_of_lt (by omega)
      have hsub : w + 1 - n = (w - n) + 1 := by omega
      rw [hsub, List.replicate_succ, List.cons_append, ← ih hle]
      simp only [hexField, hz]
      rfl

theorem fmtXAux_eq (fuel : Nat) : ∀ (v : Nat) (acc : List Char), v < fuel →
    ∃ n, 1 ≤ n ∧ (∀ w, 1 ≤ w → v < 16 ^ w → n ≤ w) ∧ v < 16 ^ n ∧
      fmtXAux fuel v acc = hexField n v ++ acc := by
  induction fuel with
  | zero => intro v acc h; omega
  | succ fuel ih =>
    intro v acc hv
    by_cases h0 : v / 16 = 0
    · refine ⟨1, le_refl 1, fun w hw _ => hw, by omega, ?_⟩
      simp [fmtXAux, h0, hexField]
    · obtain ⟨n, hn1, hmin, hlt, heq⟩ :=
        ih (v / 16) (upperHexDigit (v % 16) :: acc) (by omega)
      refine ⟨n + 1, by omega, ?_, ?_, ?_⟩
      · intro w hw hvw
        obtain ⟨w', rfl⟩ : ∃ w', w = w' + 1 := ⟨w - 1, by omega⟩
        have hw' : 1 ≤ w' := by
          by_contra hc
          have : w' = 0 := by omega
          subst this
          norm_num at hvw
          omega
        have : v / 16 < 16 ^ w' := by
          rw [pow_succ] at hvw
          exact Nat.div_lt_of_lt_mul (by omega)
        have := hmin w' hw' this
        omega
      · rw [pow_succ]
        have := (Nat.div_lt_iff_lt_mul (by norm_num : 0 < 16)).1 hlt
        exact this
      · simp only [fmtXAux, h0, if_false]
        rw [heq, hexField_succ_eq]
        simp

theorem fmt08X_eq_hexField (v : Nat) (hv : v < 2 ^ 32) : fmt08X v = hexField 8 v := by
  obtain ⟨n, -, hmin, hlt, heq⟩ := fmtXAux_eq (v + 1) v [] (by omega)
  have hn8 : n ≤ 8 := hmin 8 (by norm_num) (by norm_num; omega)
  unfold fmt08X fmtX
  rw [heq, List.append_nil, hexField_length, hexField_pad 8 n v hlt hn8]

theorem fmt08X_length (v : Nat) (hv : v < 2 ^ 32) : (fmt08X v).length = 8 := by
  rw [fmt08X_eq_hexField v hv, hexField_length]

theorem fmt08X_mem (v : Nat) (hv : v < 2 ^ 32) :
    ∀ c ∈ fmt08X v, c ∈ "0123456789ABCDEF".toList := by
  rw [fmt08X_eq_hexField v hv]
  exact hexField_mem 8 v

theorem scanHexDigits_cons (w : Nat) (c : Char) (cs : List Char) (acc n d : Nat)
    (h : hexDigitValue c = some d) :
    scanHexDigits (w + 1) (c :: cs) acc n = scanHexDigits w cs (acc * 16 + d) (n + 1) := by
  simp [scanHexDigits, h]

theorem scanHexDigits_hexField (w : Nat) :
    ∀ (v acc n : Nat) (rest : List Char),
      scanHexDigits w (hexField w v ++ rest) acc n
        = (acc * 16 ^ w + v % 16 ^ w, n + w, rest) := by
  induction w with
  | zero =>
    intro v acc n rest
    simp [hexField, scanHexDigits, Nat.mod_one]
  | succ w ih =>
    intro v acc n rest
    have hd : v / 16 ^ w % 16 < 16 := Nat.mod_lt _ (by norm_num)
    have hcons : hexField (w + 1) v ++ rest
        = upperHexDigit (v / 16 ^ w % 16) :: (hexField w v ++ rest) := rfl
    have hmod : v % 16 ^ (w + 1) = v % 16 ^ w + 16 ^ w * (v / 16 ^ w % 16) :=
      Nat.mod_pow_succ
    rw [hcons, scanHexDigits_cons _ _ _ _ _ _ (hexDigitValue_upperHexDigit _ hd), ih, hmod]
    have e1 : (acc * 16 + v / 16 ^ w % 16) * 16 ^ w + v % 16 ^ w
        = acc * 16 ^ (w + 1) + (v % 16 ^ w + 16 ^ w * (v / 16 ^ w % 16)) := by ring
    have e2 : n + 1 + w = n + (w + 1) := by ring
    rw [e1, e2]

theorem scanX_plain (s rest : List Char) (v j : Nat)
    (hdrop : List.dropWhile isspace s = s) (hsign : scanSign 8 s = (false, 8, s))
    (hlead : scanHexLead 8 s = (false, 8, s))
    (hscan : scanHexDigits 8 s 0 0 = (v, j, rest)) (hj : j ≠ 0) :
    scanX 8 s = some (wrap32 v, rest) := by
  unfold scanX
  simp only [hdrop, hsign, hlead, Bool.false_eq_true, if_false, hscan, hj]

theorem scanX_hexField (v : Nat) (rest : List Char) :
    scanX 8 (hexField 8 v ++ rest) = some (v % 2 ^ 32, rest) := by
  have hscan := scanHexDigits_hexField 8 v 0 0 rest
  have h7 : v / 16 ^ 7 % 16 < 16 := Nat.mod_lt _ (by norm_num)
  have h6 : v / 16 ^ 6 % 16 < 16 := Nat.mod_lt _ (by norm_num)
  have hform : hexField 8 v = upperHexDigit (v / 16 ^ 7 % 16)
      :: upperHexDigit (v / 16 ^ 6 % 16) :: hexField 6 v := rfl
  have hdrop : List.dropWhile isspace (hexField 8 v ++ rest) = hexField 8 v ++ rest := by
    rw [hform, List.cons_append, List.dropWhile_cons_of_neg]
    rw [isspace_upperHexDigit _ h7]
    exact Bool.false_ne_true
  have hsign : scanSign 8 (hexField 8 v ++ rest) = (false, 8, hexField 8 v ++ rest) := by
    rw [hform]
    simp only [List.cons_append, scanSign]
    rw [if_neg]
    intro h
    exact upperHexDigit_not_sign _ h7 h.2
  have hpre : scanHexLead 8 (hexField 8 v ++ rest) = (false, 8, hexField 8 v ++ rest) := by
    rw [hform]
    simp only [scanHexLead, List.cons_append]
    rw [if_neg]
    intro h
    exact upperHexDigit_not_x _ h6 h.2.2
  rw [scanX_plain _ rest _ _ hdrop hsign hpre hscan (by norm_num)]
  simp [wrap32]

theorem sscanf_hexFields (a b c t l s : Nat) (rest : List Char) :
    sscanf_08X_08X_08X (hexField 8 a ++ hexField 8 b ++ hexField 8 c ++ rest) t l s
      = ⟨3, a % 2 ^ 32, b % 2 ^ 32, c % 2 ^ 32⟩ := by
  unfold sscanf_08X_08X_08X
  simp only [List.append_assoc, scanX_hexField]

/-! ## String functions -/

theorem strcmp_eq_zero_iff (a : List Char) : ∀ b : List Char, strcmp a b = 0 ↔ a = b := by
  induction a with
  | nil =>
    intro b
    cases b with
    | nil => simp [strcmp]
    | cons y ys => simp [strcmp]
  | cons x xs ih =>
    intro b
    cases b with
    | nil => simp [strcmp]
    | cons y ys =>
      simp only [strcmp, List.cons.injEq]
      by_cases h1 : x.toNat < y.toNat
      · have hne : x ≠ y := by rintro rfl; omega
        simp [h1, hne]
      · by_cases h2 : y.toNat < x.toNat
        · have hne : x ≠ y := by rintro rfl; omega
          simp [h1, h2, hne]
        · have heq : x = y := by
            have : x.toNat = y.toNat := by omega
            rw [← Char.ofNat_toNat x, ← Char.ofNat_toNat y, this]
          simp [h1, h2, heq, ih]

theorem strspn_eq_iff (accept : List Char) (s : List Char) : ∀ n : Nat,
    strspn s accept = n ↔
      n ≤ s.length ∧ (∀ c ∈ s.take n, c ∈ accept) ∧ (∀ c, s[n]? = some c → c ∉ accept) := by
  induction s with
  | nil =>
    intro n
    simp only [strspn, List.takeWhile_nil, List.length_nil, Nat.le_zero_eq, List.take_nil,
      List.not_mem_nil, false_imp_iff, implies_true, true_and]
    constructor
    · intro h; exact ⟨h.symm, by simp⟩
    · intro h; exact h.1.symm
  | cons a t ih =>
    intro n
    by_cases ha : a ∈ accept
    · have hsp : strspn (a :: t) accept = strspn t accept + 1 := by
        simp [strspn, List.takeWhile_cons, ha]
      rw [hsp]
      cases n with
      | zero =>
        simp only [Nat.add_one_ne_zero, false_iff]
        intro h
        exact h.2.2 a (by simp) ha
      | succ m =>
        rw [Nat.add_right_cancel_iff, ih m]
        simp [ha]
    · have hsp : strspn (a :: t) accept = 0 := by
        simp [strspn, List.takeWhile_cons, ha]
      rw [hsp]
      cases n with
      | zero => simp [ha]
      | succ m =>
        constructor
        · intro h; omega
        · intro h
          exact absurd (h.2.1 a (by simp)) ha

theorem isXLogFileName_true_iff (name : List Char) :
    IsXLogFileName name = true ↔
      name.length = 24 ∧ ∀ c ∈ name, c ∈ "0123456789ABCDEF".toList := by
  unfold IsXLogFileName strlen XLOG_FNAME_LEN
  rw [Bool.and_eq_true, decide_eq_true_eq, decide_eq_true_eq, strspn_eq_iff]
  constructor
  · rintro ⟨hlen, -, hall, -⟩
    refine ⟨hlen, ?_⟩
    rwa [← hlen, List.take_length] at hall
  · rintro ⟨hlen, hall⟩
    refine ⟨hlen, by omega, ?_, ?_⟩
    · rw [← hlen, List.take_length]; exact hall
    · intro c hc
      have : name[24]? = none := List.getElem?_eq_none (by omega)
      rw [this] at hc
      exact absurd hc (by simp)

theorem xlogFileName_eq (tli logSegNo : Nat) (size : Int) (htli : tli < 2 ^ 32) :
    XLogFileName tli logSegNo size
      = hexField 8 tli ++ hexField 8 (wrap32 (logSegNo / XLogSegmentsPerXLogId size))
          ++ hexField 8 (wrap32 (logSegNo % XLogSegmentsPerXLogId size)) := by
  unfold XLogFileName snprintf MAXFNAMELEN
  rw [fmt08X_eq_hexField tli htli, fmt08X_eq_hexField _ (wrap32_lt _),
    fmt08X_eq_hexField _ (wrap32_lt _)]
  apply List.take_of_length_le
  simp [hexField_length]

theorem fromFileName_fileName (size : Int) (tli segNo t l s : Nat)
    (hsize : IsValidWalSegSize size = true) (htli : tli < 2 ^ 32)
    (hseg : segNo < 2 ^ 32 * XLogSegmentsPerXLogId size) :
    XLogFromFileName (XLogFileName tli segNo size) size t l s = (tli, segNo) := by
  obtain ⟨k, hk20, hk, rfl⟩ := (valid_iff_pow size).1 hsize
  rw [xlogFileName_eq tli segNo _ htli]
  unfold XLogFromFileName
  have hsc := sscanf_hexFields tli (wrap32 (segNo / XLogSegmentsPerXLogId (2 ^ k)))
    (wrap32 (segNo % XLogSegmentsPerXLogId (2 ^ k))) t l s []
  rw [List.append_nil] at hsc
  simp only [hsc]
  rw [segsPerXLogId_pow k hk] at hseg ⊢
  have hn : 0 < 2 ^ (32 - k) := by positivity
  have hn12 : 2 ^ (32 - k) ≤ 2 ^ 12 := Nat.pow_le_pow_right (by norm_num) (by omega)
  have hlog : segNo / 2 ^ (32 - k) < 2 ^ 32 := Nat.div_lt_of_lt_mul (by rw [Nat.mul_comm]; exact hseg)
  have hrem : segNo % 2 ^ (32 - k) < 2 ^ (32 - k) := Nat.mod_lt _ hn
  have hsum : segNo / 2 ^ (32 - k) * 2 ^ (32 - k) + segNo % 2 ^ (32 - k) = segNo :=
    Nat.div_add_mod' segNo _
  have hsegNo : segNo < 2 ^ 64 := by
    have : 2 ^ 32 * 2 ^ (32 - k) ≤ 2 ^ 32 * 2 ^ 12 := Nat.mul_le_mul_left _ hn12
    norm_num at this ⊢
    omega
  have w1 : wrap32 (segNo / 2 ^ (32 - k)) = segNo / 2 ^ (32 - k) := wrap32_of_lt _ hlog
  have w2 : wrap32 (segNo % 2 ^ (32 - k)) = segNo % 2 ^ (32 - k) :=
    wrap32_of_lt _ (by norm_num at hn12 ⊢; omega)
  rw [w1, w2, Nat.mod_eq_of_lt htli, Nat.mod_eq_of_lt hlog,
    Nat.mod_eq_of_lt (by norm_num at hn12 ⊢; omega : segNo % 2 ^ (32 - k) < 2 ^ 32)]
  have hmul : segNo / 2 ^ (32 - k) * 2 ^ (32 - k) < 2 ^ 64 := by omega
  rw [wrap64_of_lt _ hmul, hsum, wrap64_of_lt _ hsegNo]

theorem isPartialXLogFileName_true_iff (name : List Char) :
    IsPartialXLogFileName name = true ↔
      name.length = 32 ∧ (∀ c ∈ name.take 24, c ∈ "0123456789ABCDEF".toList) ∧
        name.drop 24 = ".partial".toList := by
  unfold IsPartialXLogFileName strlen XLOG_FNAME_LEN
  simp only [Bool.and_eq_true, decide_eq_true_eq, strcmp_eq_zero_iff, strspn_eq_iff]
  have hlen8 : (".partial".toList).length = 8 := rfl
  rw [hlen8]
  constructor
  · rintro ⟨⟨hlen, -, hall, -⟩, hsuf⟩
    exact ⟨hlen, hall, hsuf⟩
  · rintro ⟨hlen, hall, hsuf⟩
    refine ⟨⟨hlen, by omega, hall, ?_⟩, hsuf⟩
    intro c hc
    have h24 : name[24]? = (name.drop 24)[0]? := by simp
    rw [h24, hsuf] at hc
    have hdot : c = '.' := by
      have : (".partial".toList)[0]? = some '.' := rfl
      rw [this] at hc
      exact (Option.some.inj hc).symm
    subst hdot
    decide

theorem isBackupHistoryFileName_true_iff (name : List Char) :
    IsBackupHistoryFileName name = true ↔
      24 < name.length ∧ (∀ c ∈ name.take 24, c ∈ "0123456789ABCDEF".toList) ∧
        (∀ c, name[24]? = some c → c ∉ "0123456789ABCDEF".toList) ∧
        ".backup".toList <:+ name := by
  unfold IsBackupHistoryFileName strlen XLOG_FNAME_LEN
  simp only [Bool.and_eq_true, decide_eq_true_eq, strcmp_eq_zero_iff, strspn_eq_iff,
    List.suffix_iff_eq_drop, gt_iff_lt]
  constructor
  · rintro ⟨⟨hlen, -, hall, h25⟩, hsuf⟩
    exact ⟨hlen, hall, h25, hsuf.symm⟩
  · rintro ⟨hlen, hall, h25, hsuf⟩
    exact ⟨⟨hlen, by omega, hall, h25⟩, hsuf.symm⟩

theorem segmentOffset_lt (start : Nat) (size : Int) (hsize : IsValidWalSegSize size = true) :
    XLogSegmentOffset start size < 2 ^ 30 := by
  obtain ⟨k, -, hk, rfl⟩ := (valid_iff_pow size).1 hsize
  rw [segmentOffset_pow start k hk]
  have h1 : start % 2 ^ k < 2 ^ k := Nat.mod_lt _ (by positivity)
  have h2 := two_pow_le_30 k hk
  omega

theorem backupHistoryFileName_split (tli segNo start : Nat) (size : Int)
    (hsize : IsValidWalSegSize size = true) (htli : tli < 2 ^ 32) :
    BackupHistoryFileName tli segNo start size
      = XLogFileName tli segNo size ++ ".".toList
          ++ fmt08X (XLogSegmentOffset start size) ++ ".backup".toList := by
  have hoff := segmentOffset_lt start size hsize
  have hoff32 : XLogSegmentOffset start size < 2 ^ 32 := by omega
  rw [xlogFileName_eq tli segNo size htli]
  unfold BackupHistoryFileName snprintf MAXFNAMELEN
  rw [wrap32_of_lt _ hoff32, fmt08X_eq_hexField tli htli, fmt08X_eq_hexField _ (wrap32_lt _),
    fmt08X_eq_hexField _ (wrap32_lt _), fmt08X_eq_hexField _ hoff32]
  apply List.take_of_length_le
  simp [hexField_length]

/-! ## Arithmetic of the name fields -/

theorem mbVarToSegs_pow (mb : Nat) (k : Nat) (hk20 : 20 ≤ k) :
    XLogMBVarToSegs (mb : Int) ((2 : Int) ^ k) = ((mb / 2 ^ (k - 20) : Nat) : Int) := by
  unfold XLogMBVarToSegs
  have h1 : ((2 : Int) ^ k) = (((2 ^ k : Nat)) : Int) := by push_cast; rfl
  have h2 : ((1024 * 1024 : Int)) = (((2 ^ 20 : Nat)) : Int) := by norm_num
  have hin : Int.tdiv (((2 ^ k : Nat)) : Int) (((2 ^ 20 : Nat)) : Int)
      = (((2 ^ (k - 20) : Nat)) : Int) := by
    rw [Int.tdiv_eq_ediv (by positivity) (by positivity), ← Int.natCast_div, Nat.pow_div hk20 (by norm_num)]
  rw [h1, h2, hin, Int.tdiv_eq_ediv (by positivity) (by positivity), ← Int.natCast_div]

theorem fields_of_position (p k : Nat) (hk : k ≤ 30) :
    p / 2 ^ k / 2 ^ (32 - k) = p / 2 ^ 32 ∧
    p / 2 ^ k % 2 ^ (32 - k) = p % 2 ^ 32 / 2 ^ k := by
  have hpow : (2 : Nat) ^ 32 = 2 ^ k * 2 ^ (32 - k) := by
    rw [← pow_add]; congr 1; omega
  constructor
  · rw [Nat.div_div_eq_div_mul, ← hpow]
  · rw [hpow, Nat.mod_mul_right_div_self]

theorem segNo_bound_iff (segNo k : Nat) (hk : k ≤ 30) :
    (∃ p, p < 2 ^ 64 ∧ segNo = p / 2 ^ k) ↔ segNo < 2 ^ 32 * 2 ^ (32 - k) := by
  have hpow : (2 : Nat) ^ 64 = 2 ^ 32 * 2 ^ (32 - k) * 2 ^ k := by
    rw [← pow_add, ← pow_add]; congr 1; omega
  constructor
  · rintro ⟨p, hp, rfl⟩
    rw [hpow] at hp
    exact Nat.div_lt_of_lt_mul (by rw [Nat.mul_comm]; exact hp)
  · intro h
    refine ⟨segNo * 2 ^ k, ?_, (Nat.mul_div_cancel _ (by positivity)).symm⟩
    rw [hpow]
    exact Nat.mul_lt_mul_of_pos_right h (by positivity)

theorem tlHistoryFileName_eq (tli : Nat) (htli : tli < 2 ^ 32) :
    TLHistoryFileName tli = hexField 8 tli ++ ".history".toList := by
  unfold TLHistoryFileName snprintf MAXFNAMELEN
  rw [fmt08X_eq_hexField tli htli]
  apply List.take_of_length_le
  simp [hexField_length]

theorem backupHistoryFileName_eq (tli segNo start : Nat) (size : Int) (htli : tli < 2 ^ 32) :
    BackupHistoryFileName tli segNo start size
      = hexField 8 tli ++ hexField 8 (wrap32 (segNo / XLogSegmentsPerXLogId size))
          ++ hexField 8 (wrap32 (segNo % XLogSegmentsPerXLogId size)) ++ ".".toList
          ++ hexField 8 (wrap32 (XLogSegmentOffset start size)) ++ ".backup".toList := by
  unfold BackupHistoryFileName snprintf MAXFNAMELEN
  rw [fmt08X_eq_hexField tli htli, fmt08X_eq_hexField _ (wrap32_lt _),
    fmt08X_eq_hexField _ (wrap32_lt _), fmt08X_eq_hexField _ (wrap32_lt _)]
  apply List.take_of_length_le
  simp [hexField_length]

/-! ## Names as hexadecimal fields -/

theorem exists_upperHexDigit (c : Char) (hc : c ∈ "0123456789ABCDEF".toList) :
    ∃ d, d < 16 ∧ c = upperHexDigit d := by
  obtain ⟨d, hd, hget⟩ := List.mem_iff_getElem.1 hc
  refine ⟨d, hd, ?_⟩
  unfold upperHexDigit upperHexDigits
  rw [List.getD_eq_getElem _ _ hd]
  exact hget.symm

theorem hexField_mod (w : Nat) : ∀ v : Nat, hexField w v = hexField w (v % 16 ^ w) := by
  induction w with
  | zero => intro v; rfl
  | succ w ih =>
    intro v
    have hdig : v % 16 ^ (w + 1) / 16 ^ w % 16 = v / 16 ^ w % 16 := by
      rw [pow_succ, Nat.mod_mul_right_div_self, Nat.mod_mod]
    have hrest : v % 16 ^ (w + 1) % 16 ^ w = v % 16 ^ w :=
      Nat.mod_mod_of_dvd v (Dvd.intro _ (pow_succ 16 w).symm)
    show upperHexDigit (v / 16 ^ w % 16) :: hexField w v
      = upperHexDigit (v % 16 ^ (w + 1) / 16 ^ w % 16) :: hexField w (v % 16 ^ (w + 1))
    rw [hdig, ih v, ih (v % 16 ^ (w + 1)), hrest]

theorem exists_hexField (w : Nat) : ∀ h : List Char, h.length = w →
    (∀ c ∈ h, c ∈ "0123456789ABCDEF".toList) → ∃ v, v < 16 ^ w ∧ h = hexField w v := by
  induction w with
  | zero =>
    intro h hlen _
    exact ⟨0, by norm_num, List.length_eq_zero.1 hlen⟩
  | succ w ih =>
    intro h hlen hall
    cases h with
    | nil => simp at hlen
    | cons c t =>
      obtain ⟨d, hd, rfl⟩ := exists_upperHexDigit c (hall c (by simp))
      obtain ⟨v, hv, rfl⟩ := ih t (by simpa using hlen) (fun x hx => hall x (by simp [hx]))
      have hpos : 0 < 16 ^ w := by positivity
      refine ⟨16 ^ w * d + v, ?_, ?_⟩
      · rw [pow_succ]
        calc 16 ^ w * d + v < 16 ^ w * d + 16 ^ w := by omega
          _ = 16 ^ w * (d + 1) := by ring
          _ ≤ 16 ^ w * 16 := Nat.mul_le_mul_left _ (by omega)
      · have hdiv : (16 ^ w * d + v) / 16 ^ w % 16 = d := by
          rw [Nat.mul_add_div hpos, Nat.div_eq_of_lt hv, Nat.add_zero, Nat.mod_eq_of_lt hd]
        have hmod : (16 ^ w * d + v) % 16 ^ w = v := by
          rw [Nat.mul_add_mod, Nat.mod_eq_of_lt hv]
        show upperHexDigit d :: hexField w v
          = upperHexDigit ((16 ^ w * d + v) / 16 ^ w % 16) :: hexField w (16 ^ w * d + v)
        rw [hdiv, hexField_mod w (16 ^ w * d + v), hmod]

theorem hexField_inj (w x y : Nat) (hx : x < 16 ^ w) (hy : y < 16 ^ w)
    (h : hexField w x = hexField w y) : x = y := by
  have h1 := scanHexDigits_hexField w x 0 0 []
  have h2 := scanHexDigits_hexField w y 0 0 []
  rw [h, h2] at h1
  have h3 : 0 * 16 ^ w + y % 16 ^ w = 0 * 16 ^ w + x % 16 ^ w := congrArg Prod.fst h1
  rw [Nat.mod_eq_of_lt hx, Nat.mod_eq_of_lt hy] at h3
  omega

theorem isXLogFileName_fields (a b c : Nat) :
    IsXLogFileName (hexField 8 a ++ hexField 8 b ++ hexField 8 c) = true := by
  rw [isXLogFileName_true_iff]
  refine ⟨by simp [hexField_length], ?_⟩
  intro x hx
  simp only [List.mem_append] at hx
  rcases hx with (hx | hx) | hx <;> exact hexField_mem 8 _ x hx

theorem exists_fields_of_isXLogFileName (name : List Char)
    (h : IsXLogFileName name = true) :
    ∃ a b c, a < 2 ^ 32 ∧ b < 2 ^ 32 ∧ c < 2 ^ 32 ∧
      name = hexField 8 a ++ hexField 8 b ++ hexField 8 c := by
  obtain ⟨hlen, hall⟩ := (isXLogFileName_true_iff name).1 h
  obtain ⟨a, ha, hae⟩ := exists_hexField 8 (name.take 8) (by simp [hlen])
    (fun x hx => hall x (List.mem_of_mem_take hx))
  obtain ⟨b, hb, hbe⟩ := exists_hexField 8 ((name.drop 8).take 8) (by simp [hlen])
    (fun x hx => hall x (List.mem_of_mem_drop (List.mem_of_mem_take hx)))
  obtain ⟨c, hc, hce⟩ := exists_hexField 8 (name.drop 16) (by simp [hlen])
    (fun x hx => hall x (List.mem_of_mem_drop hx))
  refine ⟨a, b, c, by norm_num at ha ⊢; exact ha, by norm_num at hb ⊢; exact hb,
    by norm_num at hc ⊢; exact hc, ?_⟩
  have hsplit : name = name.take 8 ++ ((name.drop 8).take 8 ++ name.drop 16) := by
    have h1 : name.drop 16 = (name.drop 8).drop 8 := by simp
    rw [h1, List.take_append_drop, List.take_append_drop]
  rw [List.append_assoc, ← hae, ← hbe, ← hce]
  exact hsplit

theorem isTLHistoryFileName_true_iff (name : List Char) :
    IsTLHistoryFileName name = true ↔
      name.length = 16 ∧ (∀ c ∈ name.take 8, c ∈ "0123456789ABCDEF".toList) ∧
        name.drop 8 = ".history".toList := by
  unfold IsTLHistoryFileName strlen
  simp only [Bool.and_eq_true, decide_eq_true_eq, strcmp_eq_zero_iff, strspn_eq_iff]
  have hlen8 : (".history".toList).length = 8 := rfl
  rw [hlen8]
  constructor
  · rintro ⟨⟨hlen, -, hall, -⟩, hsuf⟩
    exact ⟨hlen, hall, hsuf⟩
  · rintro ⟨hlen, hall, hsuf⟩
    refine ⟨⟨hlen, by omega, hall, ?_⟩, hsuf⟩
    intro c hc
    have h8 : name[8]? = (name.drop 8)[0]? := by simp
    rw [h8, hsuf] at hc
    have hdot : c = '.' := by
      have : (".history".toList)[0]? = some '.' := rfl
      rw [this] at hc
      exact (Option.some.inj hc).symm
    subst hdot
    decide

/-! ## Order of names -/

theorem upperHexDigit_toNat (d : Nat) (hd : d < 16) :
    (upperHexDigit d).toNat = if d < 10 then 48 + d else 55 + d := by
  interval_cases d <;> rfl

theorem upperHexDigit_toNat_lt (d e : Nat) (hde : d < e) (he : e < 16) :
    (upperHexDigit d).toNat < (upperHexDigit e).toNat := by
  rw [upperHexDigit_toNat d (by omega), upperHexDigit_toNat e he]
  split <;> split <;> omega

theorem strcmp_cons_lt (a b : Char) (as bs : List Char) (h : a.toNat < b.toNat) :
    strcmp (a :: as) (b :: bs) = -1 := by
  simp [strcmp, h]

theorem strcmp_cons_self (a : Char) (as bs : List Char) :
    strcmp (a :: as) (a :: bs) = strcmp as bs := by
  simp [strcmp]

theorem strcmp_append_left (h : List Char) (r1 r2 : List Char) :
    strcmp (h ++ r1) (h ++ r2) = strcmp r1 r2 := by
  induction h with
  | nil => rfl
  | cons a t ih => rw [List.cons_append, List.cons_append, strcmp_cons_self, ih]

theorem strcmp_hexField_lt (w : Nat) : ∀ (x y : Nat) (r1 r2 : List Char),
    x < y → y < 16 ^ w → strcmp (hexField w x ++ r1) (hexField w y ++ r2) = -1 := by
  induction w with
  | zero => intro x y r1 r2 hxy hy; norm_num at hy; omega
  | succ w ih =>
    intro x y r1 r2 hxy hy
    have hpos : 0 < 16 ^ w := by positivity
    have hx : x < 16 ^ (w + 1) := by omega
    have hdx : x / 16 ^ w < 16 := Nat.div_lt_of_lt_mul (by rw [← pow_succ]; exact hx)
    have hdy : y / 16 ^ w < 16 := Nat.div_lt_of_lt_mul (by rw [← pow_succ]; exact hy)
    have hle : x / 16 ^ w ≤ y / 16 ^ w := Nat.div_le_div_right (by omega)
    show strcmp (upperHexDigit (x / 16 ^ w % 16) :: (hexField w x ++ r1))
      (upperHexDigit (y / 16 ^ w % 16) :: (hexField w y ++ r2)) = -1
    rw [Nat.mod_eq_of_lt hdx, Nat.mod_eq_of_lt hdy]
    rcases Nat.lt_or_eq_of_le hle with hlt | heq
    · exact strcmp_cons_lt _ _ _ _ (upperHexDigit_toNat_lt _ _ hlt hdy)
    · rw [heq, strcmp_cons_self, hexField_mod w x, hexField_mod w y]
      have hx' := Nat.div_add_mod x (16 ^ w)
      have hy' := Nat.div_add_mod y (16 ^ w)
      rw [heq] at hx'
      exact ih _ _ r1 r2 (by omega) (Nat.mod_lt _ hpos)

theorem segsPerXLogId_bounds (size : Int) (hsize : IsValidWalSegSize size = true) :
    4 ≤ XLogSegmentsPerXLogId size ∧ XLogSegmentsPerXLogId size ≤ 4096 := by
  obtain ⟨k, hk20, hk, rfl⟩ := (valid_iff_pow size).1 hsize
  rw [segsPerXLogId_pow k hk]
  have h1 : 2 ^ 2 ≤ 2 ^ (32 - k) := Nat.pow_le_pow_right (by norm_num) (by omega)
  have h2 : 2 ^ (32 - k) ≤ 2 ^ 12 := Nat.pow_le_pow_right (by norm_num) (by omega)
  norm_num at h1 h2
  exact ⟨h1, h2⟩

/-! ## Decoding and encoding again -/

theorem fields_eq_iff (a b c a' b' c' : Nat) (ha : a < 2 ^ 32) (hb : b < 2 ^ 32)
    (hc : c < 2 ^ 32) (ha' : a' < 2 ^ 32) (hb' : b' < 2 ^ 32) (hc' : c' < 2 ^ 32) :
    hexField 8 a ++ hexField 8 b ++ hexField 8 c
        = hexField 8 a' ++ hexField 8 b' ++ hexField 8 c'
      ↔ a = a' ∧ b = b' ∧ c = c' := by
  have h16 : (2 : Nat) ^ 32 = 16 ^ 8 := by norm_num
  rw [h16] at ha hb hc ha' hb' hc'
  constructor
  · intro h
    rw [List.append_assoc, List.append_assoc] at h
    obtain ⟨h1, h2⟩ := List.append_inj h (by rw [hexField_length, hexField_length])
    obtain ⟨h3, h4⟩ := List.append_inj h2 (by rw [hexField_length, hexField_length])
    exact ⟨hexField_inj 8 a a' ha ha' h1, hexField_inj 8 b b' hb hb' h3,
      hexField_inj 8 c c' hc hc' h4⟩
  · rintro ⟨rfl, rfl, rfl⟩
    rfl

theorem fromFileName_fields (size : Int) (a b c t l s : Nat)
    (hsize : IsValidWalSegSize size = true) (ha : a < 2 ^ 32) (hb : b < 2 ^ 32)
    (hc : c < 2 ^ 32) :
    sscanf_08X_08X_08X (hexField 8 a ++ hexField 8 b ++ hexField 8 c) t l s = ⟨3, a, b, c⟩ ∧
    XLogFromFileName (hexField 8 a ++ hexField 8 b ++ hexField 8 c) size t l s
      = (a, b * XLogSegmentsPerXLogId size + c) := by
  have hsc := sscanf_hexFields a b c t l s []
  rw [List.append_nil, Nat.mod_eq_of_lt ha, Nat.mod_eq_of_lt hb, Nat.mod_eq_of_lt hc] at hsc
  refine ⟨hsc, ?_⟩
  obtain ⟨-, hn⟩ := segsPerXLogId_bounds size hsize
  unfold XLogFromFileName
  simp only [hsc]
  have hmul : b * XLogSegmentsPerXLogId size ≤ 2 ^ 32 * 4096 :=
    Nat.mul_le_mul (by omega) hn
  have w1 : wrap64 (b * XLogSegmentsPerXLogId size) = b * XLogSegmentsPerXLogId size :=
    wrap64_of_lt _ (by norm_num at hmul ⊢; omega)
  rw [w1, wrap64_of_lt _ (by norm_num at hmul hc ⊢; omega)]

theorem reencode_fields_iff (size : Int) (a b c : Nat)
    (hsize : IsValidWalSegSize size = true) (ha : a < 2 ^ 32) (hb : b < 2 ^ 32)
    (hc : c < 2 ^ 32) :
    XLogFileName a (b * XLogSegmentsPerXLogId size + c) size
        = hexField 8 a ++ hexField 8 b ++ hexField 8 c
      ↔ c < XLogSegmentsPerXLogId size := by
  obtain ⟨hn4, hn⟩ := segsPerXLogId_bounds size hsize
  rw [xlogFileName_eq a _ size ha]
  generalize XLogSegmentsPerXLogId size = n at *
  have hnpos : 0 < n := by omega
  have hdiv : (b * n + c) / n = b + c / n := by
    rw [Nat.mul_comm, Nat.mul_add_div hnpos]
  have hmod : (b * n + c) % n = c % n := by
    rw [Nat.mul_comm, Nat.mul_add_mod]
  have hcm : c % n < n := Nat.mod_lt _ hnpos
  rw [hdiv, hmod, fields_eq_iff a _ _ a b c ha (wrap32_lt _) (wrap32_lt _) ha hb hc,
    wrap32_of_lt (c % n) (by omega)]
  constructor
  · rintro ⟨-, -, h⟩
    omega
  · intro h
    rw [Nat.div_eq_of_lt h, Nat.add_zero, wrap32_of_lt b hb, Nat.mod_eq_of_lt h]
    exact ⟨rfl, rfl, rfl⟩

theorem other_name_iff (size : Int) (a b c t l s : Nat)
    (hsize : IsValidWalSegSize size = true) (ha : a < 2 ^ 32) (hb : b < 2 ^ 32)
    (hc : c < 2 ^ 32) (hcn : XLogSegmentsPerXLogId size ≤ c) :
    (∃ other, other ≠ hexField 8 a ++ hexField 8 b ++ hexField 8 c ∧
        IsXLogFileName other = true ∧
        XLogFromFileName other size t l s
          = XLogFromFileName (hexField 8 a ++ hexField 8 b ++ hexField 8 c) size t l s)
      ↔ ¬ (b = 2 ^ 32 - 1 ∧ 2 ^ 32 ≤ c + XLogSegmentsPerXLogId size) := by
  obtain ⟨hn4, hn⟩ := segsPerXLogId_bounds size hsize
  rw [(fromFileName_fields size a b c t l s hsize ha hb hc).2]
  constructor
  · rintro ⟨other, hne, hacc, hdec⟩ ⟨hbmax, hcmax⟩
    obtain ⟨a', b', c', ha', hb', hc', rfl⟩ := exists_fields_of_isXLogFileName other hacc
    rw [(fromFileName_fields size a' b' c' t l s hsize ha' hb' hc').2] at hdec
    obtain ⟨haa, hsum⟩ := Prod.mk.inj hdec
    generalize XLogSegmentsPerXLogId size = n at *
    by_cases hbb : b' = b
    · subst hbb
      have hcc : c' = c := by omega
      exact hne (by rw [haa, hcc])
    · have hlt : b' + 1 ≤ b := by omega
      have hmul : (b' + 1) * n ≤ b * n := Nat.mul_le_mul_right n hlt
      rw [Nat.succ_mul] at hmul
      omega
  · intro hnot
    by_cases hb1 : b + 1 < 2 ^ 32
    · refine ⟨hexField 8 a ++ hexField 8 (b + 1)
          ++ hexField 8 (c - XLogSegmentsPerXLogId size), ?_, isXLogFileName_fields _ _ _, ?_⟩
      · intro h
        have := (fields_eq_iff a (b + 1) _ a b c ha hb1 (by omega) ha hb hc).1 h
        omega
      · rw [(fromFileName_fields size a (b + 1) _ t l s hsize ha hb1 (by omega)).2,
          Nat.succ_mul]
        congr 1
        omega
    · have hbmax : b = 2 ^ 32 - 1 := by omega
      have hcsmall : c + XLogSegmentsPerXLogId size < 2 ^ 32 := by
        by_contra hcon
        exact hnot ⟨hbmax, by omega⟩
      refine ⟨hexField 8 a ++ hexField 8 (b - 1)
          ++ hexField 8 (c + XLogSegmentsPerXLogId size), ?_, isXLogFileName_fields _ _ _, ?_⟩
      · intro h
        have := (fields_eq_iff a (b - 1) _ a b c ha (by omega) hcsmall ha hb hc).1 h
        omega
      · rw [(fromFileName_fields size a (b - 1) _ t l s hsize ha (by omega) hcsmall).2]
        congr 1
        obtain ⟨b0, rfl⟩ : ∃ b0, b = b0 + 1 := ⟨b - 1, by omega⟩
        rw [Nat.add_sub_cancel, Nat.succ_mul]
        omega

/-! ## Scanning names that are not well formed -/

theorem scanHexDigits_hexField_more (j : Nat) : ∀ (e v acc n : Nat) (rest : List Char),
    scanHexDigits (j + e) (hexField j v ++ rest) acc n
      = scanHexDigits e rest (acc * 16 ^ j + v % 16 ^ j) (n + j) := by
  induction j with
  | zero =>
    intro e v acc n rest
    simp [hexField, Nat.mod_one]
  | succ j ih =>
    intro e v acc n rest
    have hd : v / 16 ^ j % 16 < 16 := Nat.mod_lt _ (by norm_num)
    have hcons : hexField (j + 1) v ++ rest
        = upperHexDigit (v / 16 ^ j % 16) :: (hexField j v ++ rest) := rfl
    have hmod : v % 16 ^ (j + 1) = v % 16 ^ j + 16 ^ j * (v / 16 ^ j % 16) :=
      Nat.mod_pow_succ
    have hw : j + 1 + e = (j + e) + 1 := by omega
    rw [hcons, hw, scanHexDigits_cons _ _ _ _ _ _ (hexDigitValue_upperHexDigit _ hd), ih, hmod]
    have e1 : (acc * 16 + v / 16 ^ j % 16) * 16 ^ j + v % 16 ^ j
        = acc * 16 ^ (j + 1) + (v % 16 ^ j + 16 ^ j * (v / 16 ^ j % 16)) := by ring
    have e2 : n + 1 + j = n + (j + 1) := by ring
    rw [e1, e2]

theorem scanStops_cons (c : Char) (r : List Char) (h : scanStops (c :: r) = true) :
    hexDigitValue c = none ∧ isspace c = false ∧ ¬ (c = '+' ∨ c = '-') ∧
      ¬ (c = 'x' ∨ c = 'X') := by
  simp only [scanStops, Bool.and_eq_true, Option.isNone_iff_eq_none, Bool.not_eq_true',
    decide_eq_false_iff_not] at h
  exact ⟨h.1.1.1, h.1.1.2, h.1.2, h.2⟩

theorem scanHexDigits_stop (e : Nat) (rest : List Char) (acc n : Nat)
    (h : scanStops rest = true) : scanHexDigits e rest acc n = (acc, n, rest) := by
  cases e with
  | zero => rfl
  | succ e =>
    cases rest with
    | nil => rfl
    | cons c r =>
      have hc := (scanStops_cons c r h).1
      simp [scanHexDigits, hc]

theorem scanHexLead_plain (w : Nat) (s : List Char)
    (h : ∀ c0 c1 t, s = c0 :: c1 :: t → ¬ (c0 = '0' ∧ (c1 = 'x' ∨ c1 = 'X'))) :
    scanHexLead w s = (false, w, s) := by
  match s, h with
  | [], _ => rfl
  | [_], _ => rfl
  | c0 :: c1 :: t, h =>
    simp only [scanHexLead]
    rw [if_neg]
    intro hc
    exact h c0 c1 t rfl hc.2

theorem scanX_stop (rest : List Char) (h : scanStops rest = true) : scanX 8 rest = none := by
  cases rest with
  | nil => rfl
  | cons c r =>
    obtain ⟨hv, hsp, hsg, -⟩ := scanStops_cons c r h
    have hdrop : List.dropWhile isspace (c :: r) = c :: r := by
      rw [List.dropWhile_cons_of_neg]
      rw [hsp]
      exact Bool.false_ne_true
    have hsign : scanSign 8 (c :: r) = (false, 8, c :: r) := by
      simp only [scanSign]
      rw [if_neg]
      intro hc
      exact hsg hc.2
    have hlead : scanHexLead 8 (c :: r) = (false, 8, c :: r) := by
      apply scanHexLead_plain
      intro c0 c1 t heq hc
      have h0 : c = c0 := (List.cons.inj heq).1
      rw [h0, hc.1] at hv
      exact absurd hv (by decide)
    unfold scanX
    simp only [hdrop, hsign, hlead, Bool.false_eq_true, if_false,
      scanHexDigits_stop 8 (c :: r) 0 0 h, if_true]

theorem scanX_partial (j v : Nat) (rest : List Char) (hj1 : 1 ≤ j) (hj8 : j ≤ 8)
    (hv : v < 16 ^ j) (h : scanStops rest = true) :
    scanX 8 (hexField j v ++ rest) = some (v, rest) := by
  obtain ⟨i, rfl⟩ : ∃ i, j = i + 1 := ⟨j - 1, by omega⟩
  have hd : v / 16 ^ i % 16 < 16 := Nat.mod_lt _ (by norm_num)
  have hform : hexField (i + 1) v ++ rest
      = upperHexDigit (v / 16 ^ i % 16) :: (hexField i v ++ rest) := rfl
  have hdrop : List.dropWhile isspace (hexField (i + 1) v ++ rest)
      = hexField (i + 1) v ++ rest := by
    rw [hform, List.dropWhile_cons_of_neg]
    rw [isspace_upperHexDigit _ hd]
    exact Bool.false_ne_true
  have hsign : scanSign 8 (hexField (i + 1) v ++ rest)
      = (false, 8, hexField (i + 1) v ++ rest) := by
    rw [hform]
    simp only [scanSign]
    rw [if_neg]
    intro hc
    exact upperHexDigit_not_sign _ hd hc.2
  have hlead : scanHexLead 8 (hexField (i + 1) v ++ rest)
      = (false, 8, hexField (i + 1) v ++ rest) := by
    apply scanHexLead_plain
    intro c0 c1 t heq hc
    rw [hform] at heq
    have htail : hexField i v ++ rest = c1 :: t := (List.cons.inj heq).2
    cases i with
    | zero =>
      have hrest : rest = c1 :: t := htail
      rw [hrest] at h
      exact (scanStops_cons c1 t h).2.2.2 hc.2
    | succ i =>
      have hc1 : upperHexDigit (v / 16 ^ i % 16) = c1 := (List.cons.inj htail).1
      rw [← hc1] at hc
      exact upperHexDigit_not_x _ (Nat.mod_lt _ (by norm_num)) hc.2
  have hscan : scanHexDigits 8 (hexField (i + 1) v ++ rest) 0 0 = (v, i + 1, rest) := by
    have h8 : 8 = (i + 1) + (8 - (i + 1)) := by omega
    rw [h8, scanHexDigits_hexField_more, scanHexDigits_stop _ _ _ _ h,
      Nat.mod_eq_of_lt hv]
    simp
  have hv32 : v < 2 ^ 32 :=
    lt_of_lt_of_le hv (by
      have : 16 ^ (i + 1) ≤ 16 ^ 8 := Nat.pow_le_pow_right (by norm_num) hj8
      norm_num at this ⊢
      exact this)
  rw [scanX_plain _ rest _ _ hdrop hsign hlead hscan (by omega), wrap32_of_lt v hv32]

theorem scanX_lt (w : Nat) (s : List Char) (v : Nat) (r : List Char)
    (h : scanX w s = some (v, r)) : v < 2 ^ 32 := by
  unfold scanX at h
  dsimp only at h
  generalize scanSign w (List.dropWhile isspace s) = sg at h
  generalize scanHexLead sg.2.1 sg.2.2 = px at h
  generalize scanHexDigits px.2.1 px.2.2 0 (if px.1 = true then 1 else 0) = ds at h
  by_cases hz : ds.2.1 = 0
  · rw [if_pos hz] at h
    exact absurd h (by simp)
  · rw [if_neg hz] at h
    have hv := (Prod.mk.inj (Option.some.inj h)).1
    rw [← hv]
    by_cases hsg : sg.1 = true
    · rw [if_pos hsg]; exact wrap32_lt _
    · rw [if_neg hsg]; exact wrap32_lt _

theorem sscanf_eq_0 (name : List Char) (t l s : Nat) (h1 : scanX 8 name = none) :
    sscanf_08X_08X_08X name t l s = ⟨0, t, l, s⟩ := by
  simp only [sscanf_08X_08X_08X, h1]

theorem sscanf_eq_1 (name r1 : List Char) (a t l s : Nat)
    (h1 : scanX 8 name = some (a, r1)) (h2 : scanX 8 r1 = none) :
    sscanf_08X_08X_08X name t l s = ⟨1, a, l, s⟩ := by
  simp only [sscanf_08X_08X_08X, h1, h2]

theorem sscanf_eq_2 (name r1 r2 : List Char) (a b t l s : Nat)
    (h1 : scanX 8 name = some (a, r1)) (h2 : scanX 8 r1 = some (b, r2))
    (h3 : scanX 8 r2 = none) :
    sscanf_08X_08X_08X name t l s = ⟨2, a, b, s⟩ := by
  simp only [sscanf_08X_08X_08X, h1, h2, h3]

theorem sscanf_eq_3 (name r1 r2 r3 : List Char) (a b c t l s : Nat)
    (h1 : scanX 8 name = some (a, r1)) (h2 : scanX 8 r1 = some (b, r2))
    (h3 : scanX 8 r2 = some (c, r3)) :
    sscanf_08X_08X_08X name t l s = ⟨3, a, b, c⟩ := by
  simp only [sscanf_08X_08X_08X, h1, h2, h3]

theorem sscanf_fields_lt (name : List Char) (t l s : Nat) (ht : t < 2 ^ 32)
    (hl : l < 2 ^ 32) (hs : s < 2 ^ 32) :
    (sscanf_08X_08X_08X name t l s).tli < 2 ^ 32 ∧
    (sscanf_08X_08X_08X name t l s).log < 2 ^ 32 ∧
    (sscanf_08X_08X_08X name t l s).seg < 2 ^ 32 := by
  cases h1 : scanX 8 name with
  | none =>
    rw [sscanf_eq_0 name t l s h1]
    exact ⟨ht, hl, hs⟩
  | some p1 =>
    obtain ⟨a, r1⟩ := p1
    have ha := scanX_lt 8 name a r1 h1
    cases h2 : scanX 8 r1 with
    | none =>
      rw [sscanf_eq_1 name r1 a t l s h1 h2]
      exact ⟨ha, hl, hs⟩
    | some p2 =>
      obtain ⟨b, r2⟩ := p2
      have hb := scanX_lt 8 r1 b r2 h2
      cases h3 : scanX 8 r2 with
      | none =>
        rw [sscanf_eq_2 name r1 r2 a b t l s h1 h2 h3]
        exact ⟨ha, hb, hs⟩
      | some p3 =>
        obtain ⟨c, r3⟩ := p3
        rw [sscanf_eq_3 name r1 r2 r3 a b c t l s h1 h2 h3]
        exact ⟨ha, hb, scanX_lt 8 r2 c r3 h3⟩

theorem fromFileName_of_scanned (name : List Char) (size : Int) (t l s : Nat)
    (hsize : IsValidWalSegSize size = true)
    (hlog : (sscanf_08X_08X_08X name t l s).log < 2 ^ 32)
    (hseg : (sscanf_08X_08X_08X name t l s).seg < 2 ^ 32) :
    XLogFromFileName name size t l s
      = ((sscanf_08X_08X_08X name t l s).tli,
          (sscanf_08X_08X_08X name t l s).log * XLogSegmentsPerXLogId size
            + (sscanf_08X_08X_08X name t l s).seg) := by
  obtain ⟨-, hn⟩ := segsPerXLogId_bounds size hsize
  unfold XLogFromFileName
  simp only
  generalize (sscanf_08X_08X_08X name t l s).log = b at *
  generalize (sscanf_08X_08X_08X name t l s).seg = c at *
  have hmul : b * XLogSegmentsPerXLogId size ≤ 2 ^ 32 * 4096 :=
    Nat.mul_le_mul (by omega) hn
  have w1 : wrap64 (b * XLogSegmentsPerXLogId size) = b * XLogSegmentsPerXLogId size :=
    wrap64_of_lt _ (by norm_num at hmul ⊢; omega)
  rw [w1, wrap64_of_lt _ (by norm_num at hmul hseg ⊢; omega)]

theorem exists_accepted_same_decode (name : List Char) (size : Int) (t l s : Nat)
    (hsize : IsValidWalSegSize size = true) (ht : t < 2 ^ 32) (hl : l < 2 ^ 32)
    (hs : s < 2 ^ 32) :
    ∃ good, IsXLogFileName good = true ∧
      XLogFromFileName good size t l s = XLogFromFileName name size t l s := by
  obtain ⟨h1, h2, h3⟩ := sscanf_fields_lt name t l s ht hl hs
  refine ⟨hexField 8 (sscanf_08X_08X_08X name t l s).tli
      ++ hexField 8 (sscanf_08X_08X_08X name t l s).log
      ++ hexField 8 (sscanf_08X_08X_08X name t l s).seg, isXLogFileName_fields _ _ _, ?_⟩
  rw [(fromFileName_fields size _ _ _ t l s hsize h1 h2 h3).2,
    fromFileName_of_scanned name size t l s hsize h2 h3]

theorem fromFileName_of_sscanf (name : List Char) (size : Int) (t l s k x y z : Nat)
    (hsize : IsValidWalSegSize size = true)
    (hsc : sscanf_08X_08X_08X name t l s = ⟨k, x, y, z⟩)
    (hy : y < 2 ^ 32) (hz : z < 2 ^ 32) :
    XLogFromFileName name size t l s = (x, y * XLogSegmentsPerXLogId size + z) := by
  have h := fromFileName_of_scanned name size t l s hsize (by rw [hsc]; exact hy)
    (by rw [hsc]; exact hz)
  rw [hsc] at h
  exact h

theorem pow16_le_two_pow_32 (j : Nat) (hj : j ≤ 8) : 16 ^ j ≤ 2 ^ 32 := by
  have h : 16 ^ j ≤ 16 ^ 8 := Nat.pow_le_pow_right (by norm_num) hj
  norm_num at h ⊢
  exact h

theorem fromFileName_long (name : List Char) (hm : 24 ≤ strspn name "0123456789ABCDEF".toList) :
    24 ≤ name.length ∧ IsXLogFileName (name.take 24) = true ∧
      ∀ (size : Int) (t l s : Nat),
        XLogFromFileName name size t l s = XLogFromFileName (name.take 24) size t l s := by
  obtain ⟨hmle, hall, -⟩ := (strspn_eq_iff "0123456789ABCDEF".toList name _).1 rfl
  have hlen : 24 ≤ name.length := le_trans hm hmle
  have hacc : IsXLogFileName (name.take 24) = true := by
    rw [isXLogFileName_true_iff]
    refine ⟨by simp [hlen], ?_⟩
    intro c hc
    apply hall c
    have htt : name.take 24 = (name.take (strspn name "0123456789ABCDEF".toList)).take 24 := by
      rw [List.take_take, Nat.min_eq_left hm]
    rw [htt] at hc
    exact List.mem_of_mem_take hc
  refine ⟨hlen, hacc, ?_⟩
  intro size t l s
  obtain ⟨a, b, c, ha, hb, hc, heq⟩ := exists_fields_of_isXLogFileName _ hacc
  have h1 := sscanf_hexFields a b c t l s (name.drop 24)
  rw [← heq, List.take_append_drop] at h1
  have h2 := sscanf_hexFields a b c t l s []
  rw [List.append_nil, ← heq] at h2
  unfold XLogFromFileName
  rw [h1, h2]

theorem fromFileName_short (name : List Char) (size : Int) (t l s m : Nat)
    (hsize : IsValidWalSegSize size = true) (hl : l < 2 ^ 32) (hs : s < 2 ^ 32)
    (hm : strspn name "0123456789ABCDEF".toList = m) (hlt : m < 24)
    (hstop : scanStops (name.drop m) = true) :
    ∃ a b c, a < 16 ^ min m 8 ∧ b < 16 ^ min (m - 8) 8 ∧ c < 16 ^ (m - 16) ∧
      name.take m
        = hexField (min m 8) a ++ hexField (min (m - 8) 8) b ++ hexField (m - 16) c ∧
      (sscanf_08X_08X_08X name t l s).converted = (m + 7) / 8 ∧
      XLogFromFileName name size t l s
        = (if m = 0 then t else a,
            (if m ≤ 8 then l else b) * XLogSegmentsPerXLogId size
              + (if m ≤ 16 then s else c)) := by
  obtain ⟨hmle, hall, -⟩ := (strspn_eq_iff "0123456789ABCDEF".toList name m).1 hm
  have hlen : (name.take m).length = m := by simp [hmle]
  have hnone : scanX 8 (name.drop m) = none := scanX_stop _ hstop
  by_cases h0 : m = 0
  · subst h0
    have hsc : sscanf_08X_08X_08X name t l s = ⟨0, t, l, s⟩ :=
      sscanf_eq_0 name t l s (by simpa using hnone)
    refine ⟨0, 0, 0, by norm_num, by norm_num, by norm_num, by simp [hexField], ?_, ?_⟩
    · rw [hsc]
    · rw [fromFileName_of_sscanf name size t l s _ _ _ _ hsize hsc hl hs]
      simp
  by_cases h8 : m ≤ 8
  · obtain ⟨a, ha, hae⟩ := exists_hexField m (name.take m) hlen hall
    have h1 : scanX 8 (hexField m a ++ name.drop m) = some (a, name.drop m) :=
      scanX_partial m a _ (by omega) h8 ha hstop
    rw [← hae, List.take_append_drop] at h1
    have hsc := sscanf_eq_1 name _ a t l s h1 hnone
    have hz : m - 8 = 0 := by omega
    have hz2 : m - 16 = 0 := by omega
    refine ⟨a, 0, 0, by rw [Nat.min_eq_left h8]; exact ha, by rw [hz]; norm_num,
      by rw [hz2]; norm_num, ?_, ?_, ?_⟩
    · rw [Nat.min_eq_left h8, hz, hz2, hae]
      simp [hexField]
    · rw [hsc]
      show 1 = (m + 7) / 8
      omega
    · rw [fromFileName_of_sscanf name size t l s _ _ _ _ hsize hsc hl hs]
      simp [h0, h8, (by omega : m ≤ 16)]
  have hsplit8 : name.take m = (name.take m).take 8 ++ (name.take m).drop 8 :=
    (List.take_append_drop 8 _).symm
  obtain ⟨a, ha, hae⟩ := exists_hexField 8 ((name.take m).take 8) (by simp [hlen]; omega)
    (fun c hc => hall c (List.mem_of_mem_take hc))
  have ha32 : a < 2 ^ 32 := lt_of_lt_of_le ha (pow16_le_two_pow_32 8 (le_refl 8))
  by_cases h16 : m ≤ 16
  · obtain ⟨b, hb, hbe⟩ := exists_hexField (m - 8) ((name.take m).drop 8) (by simp [hlen])
      (fun c hc => hall c (List.mem_of_mem_drop hc))
    have hb32 : b < 2 ^ 32 := lt_of_lt_of_le hb (pow16_le_two_pow_32 _ (by omega))
    have hname : name = hexField 8 a ++ (hexField (m - 8) b ++ name.drop m) := by
      rw [← List.append_assoc, ← hae, ← hbe, ← hsplit8, List.take_append_drop]
    have h1 : scanX 8 name = some (a, hexField (m - 8) b ++ name.drop m) := by
      have := scanX_hexField a (hexField (m - 8) b ++ name.drop m)
      rw [← hname, Nat.mod_eq_of_lt ha32] at this
      exact this
    have h2 : scanX 8 (hexField (m - 8) b ++ name.drop m) = some (b, name.drop m) :=
      scanX_partial (m - 8) b _ (by omega) (by omega) hb hstop
    have hsc := sscanf_eq_2 name _ _ a b t l s h1 h2 hnone
    have hz2 : m - 16 = 0 := by omega
    have hmin : min m 8 = 8 := by omega
    have hmin2 : min (m - 8) 8 = m - 8 := by omega
    refine ⟨a, b, 0, by rw [hmin]; exact ha, by rw [hmin2]; exact hb,
      by rw [hz2]; norm_num, ?_, ?_, ?_⟩
    · rw [hmin, hmin2, hz2, ← hae, ← hbe, ← hsplit8]
      simp [hexField]
    · rw [hsc]
      show 2 = (m + 7) / 8
      omega
    · rw [fromFileName_of_sscanf name size t l s _ _ _ _ hsize hsc hb32 hs]
      simp [h0, h8, h16]
  · have hsplit16 : (name.take m).drop 8
        = ((name.take m).drop 8).take 8 ++ ((name.take m).drop 8).drop 8 :=
      (List.take_append_drop 8 _).symm
    obtain ⟨b, hb, hbe⟩ := exists_hexField 8 (((name.take m).drop 8).take 8)
      (by simp [hlen]; omega)
      (fun c hc => hall c (List.mem_of_mem_drop (List.mem_of_mem_take hc)))
    obtain ⟨c, hc, hce⟩ := exists_hexField (m - 16) (((name.take m).drop 8).drop 8)
      (by simp only [List.length_drop, hlen]; omega)
      (fun x hx => hall x (List.mem_of_mem_drop (List.mem_of_mem_drop hx)))
    have hb32 : b < 2 ^ 32 := lt_of_lt_of_le hb (pow16_le_two_pow_32 8 (le_refl 8))
    have hc32 : c < 2 ^ 32 := lt_of_lt_of_le hc (pow16_le_two_pow_32 _ (by omega))
    have htake : name.take m = hexField 8 a ++ (hexField 8 b ++ hexField (m - 16) c) := by
      rw [← hae, ← hbe, ← hce, ← hsplit16, ← hsplit8]
    have hname : name
        = hexField 8 a ++ (hexField 8 b ++ (hexField (m - 16) c ++ name.drop m)) := by
      rw [← List.append_assoc (hexField 8 b), ← List.append_assoc (hexField 8 a), ← htake,
        List.take_append_drop]
    have h1 : scanX 8 name
        = some (a, hexField 8 b ++ (hexField (m - 16) c ++ name.drop m)) := by
      have := scanX_hexField a (hexField 8 b ++ (hexField (m - 16) c ++ name.drop m))
      rw [← hname, Nat.mod_eq_of_lt ha32] at this
      exact this
    have h2 : scanX 8 (hexField 8 b ++ (hexField (m - 16) c ++ name.drop m))
        = some (b, hexField (m - 16) c ++ name.drop m) := by
      have := scanX_hexField b (hexField (m - 16) c ++ name.drop m)
      rw [Nat.mod_eq_of_lt hb32] at this
      exact this
    have h3 : scanX 8 (hexField (m - 16) c ++ name.drop m) = some (c, name.drop m) :=
      scanX_partial (m - 16) c _ (by omega) (by omega) hc hstop
    have hsc := sscanf_eq_3 name _ _ _ a b c t l s h1 h2 h3
    have hmin : min m 8 = 8 := by omega
    have hmin2 : min (m - 8) 8 = 8 := by omega
    refine ⟨a, b, c, by rw [hmin]; exact ha, by rw [hmin2]; exact hb, hc, ?_, ?_, ?_⟩
    · rw [hmin, hmin2, htake, List.append_assoc]
    · rw [hsc]
      show 3 = (m + 7) / 8
      omega
    · rw [fromFileName_of_sscanf name size t l s _ _ _ _ hsize hsc hb32 hc32]
      simp [h0, h8, h16]

/-! ## The claims -/

/-- C1: splitting a 64-bit position into segment number and in-segment offset
and recombining the two gives the position back, and neither the multiplication
nor the addition of the recombination exceeds the 64-bit range. -/
theorem recptr_of_split (size : Int) (p : Nat)
    (hsize : IsValidWalSegSize size = true) (hp : p < 2 ^ 64) :
    XLogSegNoOffsetToRecPtr (XLByteToSeg p size) (XLogSegmentOffset p size) size = p ∧
    XLByteToSeg p size * intToU64 size < 2 ^ 64 ∧
    XLByteToSeg p size * intToU64 size + XLogSegmentOffset p size < 2 ^ 64 := by
  obtain ⟨k, -, hk, rfl⟩ := (valid_iff_pow size).1 hsize
  have hsum : p / 2 ^ k * 2 ^ k + p % 2 ^ k = p := Nat.div_add_mod' p (2 ^ k)
  unfold XLogSegNoOffsetToRecPtr XLByteToSeg
  rw [segmentOffset_pow p k hk, intToU64_pow k hk]
  have hmul : p / 2 ^ k * 2 ^ k < 2 ^ 64 := by omega
  refine ⟨?_, hmul, by omega⟩
  rw [wrap64_of_lt _ hmul, hsum, wrap64_of_lt _ hp]

theorem recptr_of_split_witness :
    XLogSegNoOffsetToRecPtr (XLByteToSeg 95145455 16777216)
        (XLogSegmentOffset 95145455 16777216) 16777216 = 95145455 ∧
    XLByteToSeg 95145455 16777216 * intToU64 16777216 < 2 ^ 64 ∧
    XLByteToSeg 95145455 16777216 * intToU64 16777216
      + XLogSegmentOffset 95145455 16777216 < 2 ^ 64 :=
  recptr_of_split 16777216 95145455 (by decide) (by decide)

/-- C2 as stated fails: with 1 GiB segments the segment number 2^34 is a 64-bit
value whose `log` part 2^32 does not survive the `(uint32)` cast, so the name is
that of segment 0 and decoding it yields 0. -/
theorem fileName_roundtrip_counterexample :
    IsValidWalSegSize 1073741824 = true ∧ (1 : Nat) < 2 ^ 32 ∧
    (17179869184 : Nat) < 2 ^ 64 ∧
    XLogFileName 1 17179869184 1073741824 = "000000010000000000000000".toList ∧
    XLogFromFileName (XLogFileName 1 17179869184 1073741824) 1073741824 0 0 0 = (1, 0) ∧
    XLogFromFileName (XLogFileName 1 17179869184 1073741824) 1073741824 0 0 0
      ≠ (1, 17179869184) := by
  decide

/-- C2 amended: for a valid segment size, a 32-bit timeline ID and a segment
number below 2^32 * XLogSegmentsPerXLogId(size), which is every segment number
of a 64-bit position, decoding the encoded name with the same size returns the
original pair, whatever the destinations held before. -/
theorem fileName_roundtrip (size : Int) (tli segNo t l s : Nat)
    (hsize : IsValidWalSegSize size = true) (htli : tli < 2 ^ 32)
    (hseg : segNo < 2 ^ 32 * XLogSegmentsPerXLogId size) :
    XLogFromFileName (XLogFileName tli segNo size) size t l s = (tli, segNo) :=
  fromFileName_fileName size tli segNo t l s hsize htli hseg

theorem fileName_roundtrip_witness :
    XLogFromFileName (XLogFileName 1 5 16777216) 16777216 7 8 9 = (1, 5) :=
  fileName_roundtrip 16777216 1 5 7 8 9 (by decide) (by decide) (by decide)

/-- C3: `IsValidWalSegSize` holds exactly for the powers of two between
1048576 and 1073741824, that is for 2^20 up to 2^30; it rejects 0, 3 MiB,
512 KiB and every negative value and accepts 1 MiB, 16 MiB and 1 GiB. -/
theorem isValidWalSegSize_iff (size : Int) :
    (IsValidWalSegSize size = true ↔
      ((∃ k : Nat, size = 2 ^ k) ∧ 1048576 ≤ size ∧ size ≤ 1073741824)) ∧
    (IsValidWalSegSize size = true ↔ ∃ k : Nat, 20 ≤ k ∧ k ≤ 30 ∧ size = 2 ^ k) ∧
    (size < 0 → IsValidWalSegSize size = false) ∧
    IsValidWalSegSize 0 = false ∧
    IsValidWalSegSize (3 * 1048576) = false ∧
    IsValidWalSegSize 524288 = false ∧
    IsValidWalSegSize 1048576 = true ∧
    IsValidWalSegSize 16777216 = true ∧
    IsValidWalSegSize 1073741824 = true := by
  refine ⟨?_, valid_iff_pow size, ?_, by decide, by decide, by decide, by decide,
    by decide, by decide⟩
  · unfold IsValidWalSegSize WalSegMinSize WalSegMaxSize
    rw [Bool.and_eq_true, isPowerOf2_iff]
    simp only [Bool.and_eq_true, decide_eq_true_eq, ge_iff_le]
    norm_num
  · intro hneg
    cases h : IsValidWalSegSize size with
    | false => rfl
    | true =>
      obtain ⟨k, -, -, hk⟩ := (valid_iff_pow size).1 h
      have : (0 : Int) < 2 ^ k := by positivity
      omega

/-- C4 as stated fails: a 24-character name ending in `Z`, a 23-character name
and a 25-character name are all decoded without any error, all three
directives of `sscanf` convert, and the pair returned is the one a well-formed
segment name yields. -/
theorem fromFileName_malformed_counterexample :
    ('Z' ∈ ("00000001000000000000000Z".toList).take 24 ∧
      'Z' ∉ "0123456789ABCDEF".toList) ∧
    IsXLogFileName "00000001000000000000000Z".toList = false ∧
    IsXLogFileName "000000010000000000000000".toList = true ∧
    sscanf_08X_08X_08X "00000001000000000000000Z".toList 7 8 9 = ⟨3, 1, 0, 0⟩ ∧
    XLogFromFileName "00000001000000000000000Z".toList 16777216 7 8 9 = (1, 0) ∧
    XLogFromFileName "000000010000000000000000".toList 16777216 7 8 9 = (1, 0) ∧
    ("00000001000000000000000".toList).length = 23 ∧
    XLogFromFileName "00000001000000000000000".toList 16777216 7 8 9 = (1, 0) ∧
    ("0000000100000000000000050".toList).length = 25 ∧
    XLogFromFileName "0000000100000000000000050".toList 16777216 7 8 9 = (1, 5) ∧
    XLogFromFileName "000000010000000000000005".toList 16777216 7 8 9 = (1, 5) := by
  decide

/-- C4 amended: for a valid segment size and 32-bit destinations, a malformed
name (length other than 24, or a character outside 0-9, A-F among its first 24)
is rejected by `IsXLogFileName`, but `XLogFromFileName` does not fail on it: the
pair it returns is always one that some accepted name decodes to.  When the
first 24 characters are all among 0-9, A-F the name is longer than 24 and the
result is that of its first 24 characters.  When the leading run of characters
among 0-9, A-F has m < 24 characters and the scan stops after it, the run is cut
into fields of 8 digits, (m + 7) / 8 directives convert, each converts the
digits of its field, and a destination whose field is empty keeps what it held
before the call. -/
theorem fromFileName_malformed (name : List Char) (size : Int) (t l s : Nat)
    (hsize : IsValidWalSegSize size = true) (ht : t < 2 ^ 32) (hl : l < 2 ^ 32)
    (hs : s < 2 ^ 32)
    (hmal : name.length ≠ 24 ∨ ∃ c ∈ name.take 24, c ∉ "0123456789ABCDEF".toList) :
    IsXLogFileName name = false ∧
    (∃ good, IsXLogFileName good = true ∧
      XLogFromFileName good size t l s = XLogFromFileName name size t l s) ∧
    (24 ≤ strspn name "0123456789ABCDEF".toList →
      24 < name.length ∧ IsXLogFileName (name.take 24) = true ∧
      XLogFromFileName name size t l s = XLogFromFileName (name.take 24) size t l s) ∧
    (∀ m, strspn name "0123456789ABCDEF".toList = m → m < 24 →
      scanStops (name.drop m) = true →
      ∃ a b c, a < 16 ^ min m 8 ∧ b < 16 ^ min (m - 8) 8 ∧ c < 16 ^ (m - 16) ∧
        name.take m
          = hexField (min m 8) a ++ hexField (min (m - 8) 8) b ++ hexField (m - 16) c ∧
        (sscanf_08X_08X_08X name t l s).converted = (m + 7) / 8 ∧
        XLogFromFileName name size t l s
          = (if m = 0 then t else a,
              (if m ≤ 8 then l else b) * XLogSegmentsPerXLogId size
                + (if m ≤ 16 then s else c))) := by
  have hrej : IsXLogFileName name = false := by
    cases h : IsXLogFileName name with
    | false => rfl
    | true =>
      obtain ⟨hlen, hall⟩ := (isXLogFileName_true_iff name).1 h
      rcases hmal with hne | ⟨c, hc, hnot⟩
      · exact absurd hlen hne
      · exact absurd (hall c (List.mem_of_mem_take hc)) hnot
  refine ⟨hrej, exists_accepted_same_decode name size t l s hsize ht hl hs, ?_, ?_⟩
  · intro hm
    obtain ⟨hlen, hacc, hdec⟩ := fromFileName_long name hm
    refine ⟨?_, hacc, hdec size t l s⟩
    rcases Nat.lt_or_eq_of_le hlen with hlt | heq
    · exact hlt
    · rw [heq, List.take_length, hrej] at hacc
      exact absurd hacc (by decide)
  · intro m hm hlt hstop
    exact fromFileName_short name size t l s m hsize hl hs hm hlt hstop

theorem fromFileName_malformed_witness :
    IsXLogFileName "00000001000000000000000Z".toList = false ∧
    (∃ good, IsXLogFileName good = true ∧
      XLogFromFileName good 16777216 7 8 9
        = XLogFromFileName "00000001000000000000000Z".toList 16777216 7 8 9) ∧
    (∃ a b c, a < 16 ^ min 23 8 ∧ b < 16 ^ min (23 - 8) 8 ∧ c < 16 ^ (23 - 16) ∧
      ("00000001000000000000000Z".toList).take 23
        = hexField (min 23 8) a ++ hexField (min (23 - 8) 8) b ++ hexField (23 - 16) c ∧
      (sscanf_08X_08X_08X "00000001000000000000000Z".toList 7 8 9).converted
        = (23 + 7) / 8 ∧
      XLogFromFileName "00000001000000000000000Z".toList 16777216 7 8 9
        = (if 23 = 0 then 7 else a,
            (if 23 ≤ 8 then 8 else b) * XLogSegmentsPerXLogId 16777216
              + (if 23 ≤ 16 then 9 else c))) :=
  have h := fromFileName_malformed "00000001000000000000000Z".toList 16777216 7 8 9
    (by decide) (by decide) (by decide) (by decide) (Or.inr ⟨'Z', by decide, by decide⟩)
  ⟨h.1, h.2.1, h.2.2.2 23 (by decide) (by decide) (by decide)⟩

/-- C5: `IsXLogFileName` accepts exactly the strings of 24 characters that are
all among 0-9, A-F; it accepts 000000010000000000000005, rejects the name
ending in Z and rejects every string of 23 or of 25 characters. -/
theorem isXLogFileName_spec (name : List Char) :
    (IsXLogFileName name = true ↔
      name.length = 24 ∧ ∀ c ∈ name, c ∈ "0123456789ABCDEF".toList) ∧
    IsXLogFileName "000000010000000000000005".toList = true ∧
    IsXLogFileName "00000001000000000000000Z".toList = false ∧
    ((name.length = 23 ∨ name.length = 25) → IsXLogFileName name = false) := by
  refine ⟨isXLogFileName_true_iff name, by decide, by decide, ?_⟩
  intro hlen
  cases h : IsXLogFileName name with
  | false => rfl
  | true =>
    have := ((isXLogFileName_true_iff name).1 h).1
    omega

/-- C6: for a valid segment size, a 32-bit timeline ID and a 64-bit segment
number, the name `XLogFileName` writes is the three `%08X` fields, each 8
characters long, 24 characters in all, every one of them among 0-9, A-F, and
`IsXLogFileName` accepts it; for timeline 1, segment 5 and 16 MiB segments it
is 000000010000000000000005. -/
theorem xlogFileName_shape (tli segNo : Nat) (size : Int)
    (_hsize : IsValidWalSegSize size = true) (htli : tli < 2 ^ 32)
    (_hseg : segNo < 2 ^ 64) :
    (XLogFileName tli segNo size).length = 24 ∧
    (∀ c ∈ XLogFileName tli segNo size, c ∈ "0123456789ABCDEF".toList) ∧
    XLogFileName tli segNo size
      = fmt08X tli ++ fmt08X (wrap32 (segNo / XLogSegmentsPerXLogId size))
          ++ fmt08X (wrap32 (segNo % XLogSegmentsPerXLogId size)) ∧
    (fmt08X tli).length = 8 ∧
    (fmt08X (wrap32 (segNo / XLogSegmentsPerXLogId size))).length = 8 ∧
    (fmt08X (wrap32 (segNo % XLogSegmentsPerXLogId size))).length = 8 ∧
    IsXLogFileName (XLogFileName tli segNo size) = true ∧
    XLogFileName 1 5 16777216 = "000000010000000000000005".toList := by
  have heq := xlogFileName_eq tli segNo size htli
  have hlen : (XLogFileName tli segNo size).length = 24 := by
    rw [heq]; simp [hexField_length]
  have hmem : ∀ c ∈ XLogFileName tli segNo size, c ∈ "0123456789ABCDEF".toList := by
    intro c hc
    rw [heq] at hc
    simp only [List.mem_append] at hc
    rcases hc with (hc | hc) | hc <;> exact hexField_mem 8 _ c hc
  refine ⟨hlen, hmem, ?_, fmt08X_length _ htli, fmt08X_length _ (wrap32_lt _),
    fmt08X_length _ (wrap32_lt _), (isXLogFileName_true_iff _).2 ⟨hlen, hmem⟩, by decide⟩
  rw [heq, fmt08X_eq_hexField tli htli, fmt08X_eq_hexField _ (wrap32_lt _),
    fmt08X_eq_hexField _ (wrap32_lt _)]

theorem xlogFileName_shape_witness :
    (XLogFileName 1 5 16777216).length = 24 ∧
    (∀ c ∈ XLogFileName 1 5 16777216, c ∈ "0123456789ABCDEF".toList) ∧
    XLogFileName 1 5 16777216
      = fmt08X 1 ++ fmt08X (wrap32 (5 / XLogSegmentsPerXLogId 16777216))
          ++ fmt08X (wrap32 (5 % XLogSegmentsPerXLogId 16777216)) ∧
    (fmt08X 1).length = 8 ∧
    (fmt08X (wrap32 (5 / XLogSegmentsPerXLogId 16777216))).length = 8 ∧
    (fmt08X (wrap32 (5 % XLogSegmentsPerXLogId 16777216))).length = 8 ∧
    IsXLogFileName (XLogFileName 1 5 16777216) = true ∧
    XLogFileName 1 5 16777216 = "000000010000000000000005".toList :=
  xlogFileName_shape 1 5 16777216 (by decide) (by decide) (by decide)

/-- C7 as stated fails: 25 hex digits followed by `.backup` is longer than 24
characters, starts with 24 hex digits and ends with `.backup`, yet the test
rejects it, because `strspn` must be exactly 24. -/
theorem isBackupHistoryFileName_counterexample :
    24 < ("0000000000000000000000000.backup".toList).length ∧
    (∀ c ∈ ("0000000000000000000000000.backup".toList).take 24,
      c ∈ "0123456789ABCDEF".toList) ∧
    "0000000000000000000000000.backup".toList
      = "0000000000000000000000000".toList ++ ".backup".toList ∧
    strspn "0000000000000000000000000.backup".toList "0123456789ABCDEF".toList = 25 ∧
    IsBackupHistoryFileName "0000000000000000000000000.backup".toList = false := by
  decide

/-- C7 amended: `IsBackupHistoryFileName` accepts exactly the names longer than
24 characters whose first 24 characters are among 0-9, A-F, whose 25th
character is not among them, and which end with `.backup`; nothing else about
the characters between the 24-character start and the `.backup` ending is
checked. -/
theorem isBackupHistoryFileName_spec (name : List Char) :
    (IsBackupHistoryFileName name = true ↔
      24 < name.length ∧ (∀ c ∈ name.take 24, c ∈ "0123456789ABCDEF".toList) ∧
        (∀ c, name[24]? = some c → c ∉ "0123456789ABCDEF".toList) ∧
        ".backup".toList <:+ name) ∧
    (∀ h m : List Char, h.length = 24 → (∀ c ∈ h, c ∈ "0123456789ABCDEF".toList) →
      (∀ c, m.head? = some c → c ∉ "0123456789ABCDEF".toList) →
      IsBackupHistoryFileName (h ++ m ++ ".backup".toList) = true) := by
  refine ⟨isBackupHistoryFileName_true_iff name, ?_⟩
  intro h m hlen hall hmid
  rw [isBackupHistoryFileName_true_iff]
  refine ⟨?_, ?_, ?_, List.suffix_append _ _⟩
  · simp only [List.length_append, hlen]
    have : (".backup".toList).length = 7 := rfl
    omega
  · intro c hc
    rw [List.append_assoc, List.take_left' hlen] at hc
    exact hall c hc
  · intro c hc
    rw [List.append_assoc, List.getElem?_append_right (by omega), hlen, Nat.sub_self] at hc
    cases m with
    | nil =>
      have hdot : c = '.' := by
        have h0 : (([] : List Char) ++ ".backup".toList)[0]? = some '.' := rfl
        rw [h0] at hc
        exact (Option.some.inj hc).symm
      subst hdot
      decide
    | cons x xs =>
      have hx : c = x := by
        have h0 : ((x :: xs) ++ ".backup".toList)[0]? = some x := by simp
        rw [h0] at hc
        exact (Option.some.inj hc).symm
      subst hx
      exact hmid c rfl

/-- C8: for a valid segment size and a 32-bit timeline ID, `BackupHistoryFileName`
writes the 40 characters made of the segment file name, a dot, the in-segment
offset of the start position as a `%08X` field of 8 characters, and `.backup`;
for timeline 1, segment 5, 16 MiB segments and a start position of in-segment
offset 0x00ABCDEF that is 000000010000000000000005.00ABCDEF.backup. -/
theorem backupHistoryFileName_spec (tli segNo start : Nat) (size : Int)
    (hsize : IsValidWalSegSize size = true) (htli : tli < 2 ^ 32)
    (_hseg : segNo < 2 ^ 64) (_hstart : start < 2 ^ 64) :
    BackupHistoryFileName tli segNo start size
      = XLogFileName tli segNo size ++ ".".toList
          ++ fmt08X (XLogSegmentOffset start size) ++ ".backup".toList ∧
    (BackupHistoryFileName tli segNo start size).length = 40 ∧
    (fmt08X (XLogSegmentOffset start size)).length = 8 ∧
    (XLogSegmentOffset start 16777216 = 0x00ABCDEF →
      BackupHistoryFileName 1 5 start 16777216
        = "000000010000000000000005.00ABCDEF.backup".toList) := by
  have hoff : XLogSegmentOffset start size < 2 ^ 32 := by
    have := segmentOffset_lt start size hsize
    omega
  have hsplit := backupHistoryFileName_split tli segNo start size hsize htli
  refine ⟨hsplit, ?_, fmt08X_length _ hoff, ?_⟩
  · rw [hsplit, xlogFileName_eq tli segNo size htli]
    simp only [List.length_append, hexField_length, fmt08X_length _ hoff]
    rfl
  · intro h
    rw [backupHistoryFileName_split 1 5 start 16777216 (by decide) (by decide), h]
    decide

theorem backupHistoryFileName_spec_witness :
    BackupHistoryFileName 1 5 95145455 16777216
      = XLogFileName 1 5 16777216 ++ ".".toList
          ++ fmt08X (XLogSegmentOffset 95145455 16777216) ++ ".backup".toList ∧
    (BackupHistoryFileName 1 5 95145455 16777216).length = 40 ∧
    (fmt08X (XLogSegmentOffset 95145455 16777216)).length = 8 ∧
    (XLogSegmentOffset 95145455 16777216 = 0x00ABCDEF →
      BackupHistoryFileName 1 5 95145455 16777216
        = "000000010000000000000005.00ABCDEF.backup".toList) :=
  backupHistoryFileName_spec 1 5 95145455 16777216 (by decide) (by decide) (by decide)
    (by decide)

/-- C9: `IsPartialXLogFileName` accepts exactly the strings of 32 characters
whose first 24 characters are among 0-9, A-F and whose last 8 characters are
`.partial`; it accepts 000000010000000000000005.partial. -/
theorem isPartialXLogFileName_spec (name : List Char) :
    (IsPartialXLogFileName name = true ↔
      name.length = 32 ∧ (∀ c ∈ name.take 24, c ∈ "0123456789ABCDEF".toList) ∧
        name.drop (name.length - 8) = ".partial".toList) ∧
    IsPartialXLogFileName "000000010000000000000005.partial".toList = true := by
  refine ⟨?_, by decide⟩
  rw [isPartialXLogFileName_true_iff]
  constructor
  · rintro ⟨hlen, hall, hsuf⟩
    refine ⟨hlen, hall, ?_⟩
    rw [hlen]; exact hsuf
  · rintro ⟨hlen, hall, hsuf⟩
    refine ⟨hlen, hall, ?_⟩
    rw [hlen] at hsuf; exact hsuf

/-- C10: for k at least 1, the previous-segment rule puts the boundary position
k * size into segment k - 1, and the position k * size + 1 into segment k. -/
theorem prevSeg_at_boundary (size : Int) (k : Nat)
    (hsize : IsValidWalSegSize size = true) (hk : 1 ≤ k)
    (hb : k * size.toNat + 1 < 2 ^ 64) :
    XLByteToPrevSeg (k * size.toNat) size = k - 1 ∧
    XLByteToPrevSeg (k * size.toNat + 1) size = k := by
  obtain ⟨j, -, hj, rfl⟩ := (valid_iff_pow size).1 hsize
  rw [toNat_pow] at hb ⊢
  unfold XLByteToPrevSeg
  rw [intToU64_pow j hj]
  have hS : 0 < 2 ^ j := by positivity
  obtain ⟨k', rfl⟩ : ∃ k', k = k' + 1 := ⟨k - 1, by omega⟩
  have hmul : (k' + 1) * 2 ^ j = k' * 2 ^ j + 2 ^ j := by ring
  have hb' : k' * 2 ^ j + 2 ^ j + 1 < 2 ^ 64 := by omega
  rw [Nat.add_sub_cancel, hmul]
  unfold wrap64
  generalize 2 ^ j = S at *
  generalize hX : k' * S = X at *
  constructor
  · have h1 : (X + S + 2 ^ 64 - 1) % 2 ^ 64 = X + (S - 1) := by omega
    rw [h1]
    exact Nat.div_eq_of_lt_le (by omega) (by rw [Nat.succ_mul]; omega)
  · have h1 : (X + S + 1 + 2 ^ 64 - 1) % 2 ^ 64 = X + S := by omega
    rw [h1, ← hmul]
    exact Nat.mul_div_cancel _ hS

theorem prevSeg_at_boundary_witness :
    XLByteToPrevSeg (3 * (16777216 : Int).toNat) 16777216 = 3 - 1 ∧
    XLByteToPrevSeg (3 * (16777216 : Int).toNat + 1) 16777216 = 3 :=
  prevSeg_at_boundary 16777216 3 (by decide) (by decide) (by decide)

/-- C11: for a valid segment size and a megabyte count that is not negative,
`XLogMBVarToSegs` is the floor of the count divided by the segment size in
megabytes: the largest r with r * (size / 1048576) at most the count; with
16 MiB segments it gives 2 for 32 and 0 for 10. -/
theorem mbVarToSegs_floor (size mb : Int)
    (hsize : IsValidWalSegSize size = true) (hmb : 0 ≤ mb) :
    XLogMBVarToSegs mb size * (size / 1048576) ≤ mb ∧
    (∀ r : Int, r * (size / 1048576) ≤ mb → r ≤ XLogMBVarToSegs mb size) ∧
    XLogMBVarToSegs mb size = ⌊(mb : ℚ) / ((size : ℚ) / 1048576)⌋ ∧
    XLogMBVarToSegs 32 16777216 = 2 ∧
    XLogMBVarToSegs 10 16777216 = 0 := by
  obtain ⟨k, hk20, -, rfl⟩ := (valid_iff_pow size).1 hsize
  obtain ⟨n, rfl⟩ := Int.eq_ofNat_of_zero_le hmb
  have hM : 0 < 2 ^ (k - 20) := by positivity
  have hsz : ((2 : Int) ^ k) / 1048576 = (((2 ^ (k - 20) : Nat)) : Int) := by
    have h1 : ((2 : Int) ^ k) = (((2 ^ k : Nat)) : Int) := by push_cast; rfl
    have h2 : (1048576 : Int) = (((2 ^ 20 : Nat)) : Int) := by norm_num
    rw [h1, h2, ← Int.natCast_div, Nat.pow_div hk20 (by norm_num)]
  have hq : (((2 : Int) ^ k : Int) : ℚ) / 1048576 = (((2 ^ (k - 20) : Nat)) : ℚ) := by
    have hk : k = (k - 20) + 20 := by omega
    have h20 : (2 : ℚ) ^ 20 = 1048576 := by norm_num
    push_cast
    rw [div_eq_iff (by norm_num), ← h20, ← pow_add, ← hk]
  rw [mbVarToSegs_pow n k hk20, hsz, hq]
  refine ⟨?_, ?_, ?_, by decide, by decide⟩
  · exact_mod_cast Nat.div_mul_le_self n (2 ^ (k - 20))
  · intro r hr
    rw [Int.natCast_div]
    exact Int.le_ediv_of_mul_le (by exact_mod_cast hM) hr
  · rw [Rat.floor_intCast_div_natCast, Int.natCast_div]

theorem mbVarToSegs_floor_witness :
    XLogMBVarToSegs 32 16777216 * (16777216 / 1048576) ≤ 32 ∧
    (∀ r : Int, r * (16777216 / 1048576) ≤ 32 → r ≤ XLogMBVarToSegs 32 16777216) ∧
    XLogMBVarToSegs 32 16777216 = ⌊((32 : Int) : ℚ) / (((16777216 : Int) : ℚ) / 1048576)⌋ ∧
    XLogMBVarToSegs 32 16777216 = 2 ∧
    XLogMBVarToSegs 10 16777216 = 0 :=
  mbVarToSegs_floor 16777216 32 (by decide) (by decide)

/-- C12: for a valid segment size and a 64-bit position, the in-segment offset
is the position masked with size - 1, which equals the remainder of the
position modulo the size and so is strictly below the size. -/
theorem segmentOffset_eq_mod (size : Int) (p : Nat)
    (hsize : IsValidWalSegSize size = true) (_hp : p < 2 ^ 64) :
    XLogSegmentOffset p size = p &&& (size.toNat - 1) ∧
    XLogSegmentOffset p size = p % size.toNat ∧
    XLogSegmentOffset p size < size.toNat := by
  obtain ⟨k, -, hk, rfl⟩ := (valid_iff_pow size).1 hsize
  rw [toNat_pow, segmentOffset_pow p k hk]
  exact ⟨(Nat.and_pow_two_sub_one_eq_mod p k).symm, rfl, Nat.mod_lt _ (by positivity)⟩

theorem segmentOffset_eq_mod_witness :
    XLogSegmentOffset 95145455 16777216 = 95145455 &&& ((16777216 : Int).toNat - 1) ∧
    XLogSegmentOffset 95145455 16777216 = 95145455 % (16777216 : Int).toNat ∧
    XLogSegmentOffset 95145455 16777216 < (16777216 : Int).toNat :=
  segmentOffset_eq_mod 16777216 95145455 (by decide) (by decide)

/-- C13: for a valid segment size, a segment number s and an offset o below the
size with s * size + o inside the 64-bit range, the position built by
`XLogSegNoOffsetToRecPtr` splits back into segment number s and offset o. -/
theorem split_of_recptr (size : Int) (s o : Nat)
    (hsize : IsValidWalSegSize size = true) (ho : o < size.toNat)
    (hb : s * size.toNat + o < 2 ^ 64) :
    XLByteToSeg (XLogSegNoOffsetToRecPtr s o size) size = s ∧
    XLogSegmentOffset (XLogSegNoOffsetToRecPtr s o size) size = o := by
  obtain ⟨k, -, hk, rfl⟩ := (valid_iff_pow size).1 hsize
  rw [toNat_pow] at ho hb
  have hpos : 0 < 2 ^ k := by positivity
  have hrec : XLogSegNoOffsetToRecPtr s o ((2 : Int) ^ k) = s * 2 ^ k + o := by
    unfold XLogSegNoOffsetToRecPtr
    have hm : wrap64 (s * 2 ^ k) = s * 2 ^ k := wrap64_of_lt _ (by omega)
    rw [intToU64_pow k hk, hm, wrap64_of_lt _ hb]
  rw [hrec, segmentOffset_pow _ k hk]
  unfold XLByteToSeg
  rw [intToU64_pow k hk]
  constructor
  · rw [Nat.mul_comm, Nat.mul_add_div hpos, Nat.div_eq_of_lt ho, Nat.add_zero]
  · rw [Nat.mul_comm, Nat.mul_add_mod, Nat.mod_eq_of_lt ho]

theorem split_of_recptr_witness :
    XLByteToSeg (XLogSegNoOffsetToRecPtr 5 11259375 16777216) 16777216 = 5 ∧
    XLogSegmentOffset (XLogSegNoOffsetToRecPtr 5 11259375 16777216) 16777216 = 11259375 :=
  split_of_recptr 16777216 5 11259375 (by decide) (by decide) (by decide)

/-- C14: each path builder returns `pg_wal/` followed by what the name encoder
of the same arguments returns; `MAXPGPATH`, which these headers do not define,
is any bound of at least 48 characters. -/
theorem path_eq_dir_name (MAXPGPATH tli segNo start : Nat) (size : Int)
    (hmax : 48 ≤ MAXPGPATH) (htli : tli < 2 ^ 32) :
    XLogFilePath MAXPGPATH tli segNo size
      = "pg_wal/".toList ++ XLogFileName tli segNo size ∧
    TLHistoryFilePath MAXPGPATH tli = "pg_wal/".toList ++ TLHistoryFileName tli ∧
    BackupHistoryFilePath MAXPGPATH tli segNo start size
      = "pg_wal/".toList ++ BackupHistoryFileName tli segNo start size := by
  refine ⟨?_, ?_, ?_⟩
  · rw [xlogFileName_eq tli segNo size htli]
    unfold XLogFilePath snprintf XLOGDIR
    rw [fmt08X_eq_hexField tli htli, fmt08X_eq_hexField _ (wrap32_lt _),
      fmt08X_eq_hexField _ (wrap32_lt _), List.take_of_length_le]
    · simp
    · simp only [List.length_append, hexField_length]
      have : ("pg_wal".toList).length = 6 := rfl
      have : ("/".toList).length = 1 := rfl
      omega
  · rw [tlHistoryFileName_eq tli htli]
    unfold TLHistoryFilePath snprintf XLOGDIR
    rw [fmt08X_eq_hexField tli htli, List.take_of_length_le]
    · simp
    · simp only [List.length_append, hexField_length]
      have : ("pg_wal".toList).length = 6 := rfl
      have : ("/".toList).length = 1 := rfl
      have : (".history".toList).length = 8 := rfl
      omega
  · rw [backupHistoryFileName_eq tli segNo start size htli]
    unfold BackupHistoryFilePath snprintf XLOGDIR
    rw [fmt08X_eq_hexField tli htli, fmt08X_eq_hexField _ (wrap32_lt _),
      fmt08X_eq_hexField _ (wrap32_lt _), fmt08X_eq_hexField _ (wrap32_lt _),
      List.take_of_length_le]
    · simp
    · simp only [List.length_append, hexField_length]
      have : ("pg_wal".toList).length = 6 := rfl
      have : ("/".toList).length = 1 := rfl
      have : (".".toList).length = 1 := rfl
      have : (".backup".toList).length = 7 := rfl
      omega

theorem path_eq_dir_name_witness :
    XLogFilePath 1024 1 5 16777216 = "pg_wal/".toList ++ XLogFileName 1 5 16777216 ∧
    TLHistoryFilePath 1024 1 = "pg_wal/".toList ++ TLHistoryFileName 1 ∧
    BackupHistoryFilePath 1024 1 5 95145455 16777216
      = "pg_wal/".toList ++ BackupHistoryFileName 1 5 95145455 16777216 :=
  path_eq_dir_name 1024 1 5 95145455 16777216 (by decide) (by decide)

/-- C15: `IsTLHistoryFileName` accepts exactly the outputs of `TLHistoryFileName`
for 32-bit timeline IDs, which are the strings of 16 characters made of 8
characters among 0-9, A-F followed by `.history`. -/
theorem isTLHistoryFileName_spec (name : List Char) :
    (IsTLHistoryFileName name = true ↔
      ∃ tli, tli < 2 ^ 32 ∧ name = TLHistoryFileName tli) ∧
    (IsTLHistoryFileName name = true ↔
      name.length = 16 ∧ (∀ c ∈ name.take 8, c ∈ "0123456789ABCDEF".toList) ∧
        name.drop 8 = ".history".toList) ∧
    (∀ tli, tli < 2 ^ 32 → TLHistoryFileName tli = fmt08X tli ++ ".history".toList ∧
      (fmt08X tli).length = 8) := by
  refine ⟨?_, isTLHistoryFileName_true_iff name, ?_⟩
  · rw [isTLHistoryFileName_true_iff]
    constructor
    · rintro ⟨hlen, hall, hsuf⟩
      obtain ⟨v, hv, hve⟩ := exists_hexField 8 (name.take 8) (by simp [hlen]) hall
      have hv32 : v < 2 ^ 32 := by norm_num at hv ⊢; exact hv
      refine ⟨v, hv32, ?_⟩
      rw [tlHistoryFileName_eq v hv32, ← hve, ← hsuf, List.take_append_drop]
    · rintro ⟨tli, htli, rfl⟩
      rw [tlHistoryFileName_eq tli htli]
      refine ⟨by simp [hexField_length], ?_, ?_⟩
      · intro c hc
        rw [List.take_left' (hexField_length 8 tli)] at hc
        exact hexField_mem 8 tli c hc
      · rw [List.drop_left' (hexField_length 8 tli)]
  · intro tli htli
    refine ⟨?_, fmt08X_length tli htli⟩
    rw [tlHistoryFileName_eq tli htli, fmt08X_eq_hexField tli htli]

/-- C16: for a valid segment size and a 32-bit timeline ID, a segment number
that is the segment of some 64-bit position, which is the same as being below
2^32 * XLogSegmentsPerXLogId(size), passes the two `(uint32)` casts of
`XLogFileName` unchanged, and decoding its name returns the original pair. -/
theorem roundtrip_of_position (size : Int) (tli segNo t l s : Nat)
    (hsize : IsValidWalSegSize size = true) (htli : tli < 2 ^ 32)
    (hseg : ∃ p, p < 2 ^ 64 ∧ segNo = XLByteToSeg p size) :
    ((∃ p, p < 2 ^ 64 ∧ segNo = XLByteToSeg p size)
      ↔ segNo < 2 ^ 32 * XLogSegmentsPerXLogId size) ∧
    wrap32 (segNo / XLogSegmentsPerXLogId size) = segNo / XLogSegmentsPerXLogId size ∧
    wrap32 (segNo % XLogSegmentsPerXLogId size) = segNo % XLogSegmentsPerXLogId size ∧
    XLogFromFileName (XLogFileName tli segNo size) size t l s = (tli, segNo) := by
  have hiff : (∃ p, p < 2 ^ 64 ∧ segNo = XLByteToSeg p size)
      ↔ segNo < 2 ^ 32 * XLogSegmentsPerXLogId size := by
    obtain ⟨k, -, hk, rfl⟩ := (valid_iff_pow size).1 hsize
    unfold XLByteToSeg
    rw [intToU64_pow k hk, segsPerXLogId_pow k hk]
    exact segNo_bound_iff segNo k hk
  have hlt := hiff.1 hseg
  refine ⟨hiff, ?_, ?_, fromFileName_fileName size tli segNo t l s hsize htli hlt⟩
  · exact wrap32_of_lt _ (Nat.div_lt_of_lt_mul (by rw [Nat.mul_comm]; exact hlt))
  · obtain ⟨k, -, hk, rfl⟩ := (valid_iff_pow size).1 hsize
    rw [segsPerXLogId_pow k hk]
    have h1 : segNo % 2 ^ (32 - k) < 2 ^ (32 - k) := Nat.mod_lt _ (by positivity)
    have h2 : 2 ^ (32 - k) ≤ 2 ^ 32 := Nat.pow_le_pow_right (by norm_num) (by omega)
    exact wrap32_of_lt _ (by omega)

theorem roundtrip_of_position_witness :
    ((∃ p, p < 2 ^ 64 ∧ 5 = XLByteToSeg p 16777216)
      ↔ 5 < 2 ^ 32 * XLogSegmentsPerXLogId 16777216) ∧
    wrap32 (5 / XLogSegmentsPerXLogId 16777216) = 5 / XLogSegmentsPerXLogId 16777216 ∧
    wrap32 (5 % XLogSegmentsPerXLogId 16777216) = 5 % XLogSegmentsPerXLogId 16777216 ∧
    XLogFromFileName (XLogFileName 1 5 16777216) 16777216 7 8 9 = (1, 5) :=
  roundtrip_of_position 16777216 1 5 7 8 9 (by decide) (by decide)
    ⟨95145455, by decide, by decide⟩

/-- C17: for a valid segment size and a 64-bit position p of segment number
`XLByteToSeg(p, size)`, the `log` field that `XLogFileName` writes is the high
32 bits of p, whatever the size, and the `seg` field is (p mod 2^32) / size;
neither is changed by the `(uint32)` cast. -/
theorem fileName_fields_of_position (size : Int) (tli p : Nat)
    (hsize : IsValidWalSegSize size = true) (htli : tli < 2 ^ 32) (hp : p < 2 ^ 64) :
    XLByteToSeg p size / XLogSegmentsPerXLogId size = p / 2 ^ 32 ∧
    XLByteToSeg p size % XLogSegmentsPerXLogId size = p % 2 ^ 32 / size.toNat ∧
    wrap32 (XLByteToSeg p size / XLogSegmentsPerXLogId size) = p / 2 ^ 32 ∧
    wrap32 (XLByteToSeg p size % XLogSegmentsPerXLogId size) = p % 2 ^ 32 / size.toNat ∧
    XLogFileName tli (XLByteToSeg p size) size
      = fmt08X tli ++ fmt08X (p / 2 ^ 32) ++ fmt08X (p % 2 ^ 32 / size.toNat) := by
  have hname := xlogFileName_eq tli (XLByteToSeg p size) size htli
  obtain ⟨k, -, hk, rfl⟩ := (valid_iff_pow size).1 hsize
  have hlog : XLByteToSeg p ((2 : Int) ^ k) / XLogSegmentsPerXLogId ((2 : Int) ^ k)
      = p / 2 ^ 32 := by
    unfold XLByteToSeg
    rw [intToU64_pow k hk, segsPerXLogId_pow k hk]
    exact (fields_of_position p k hk).1
  have hseg : XLByteToSeg p ((2 : Int) ^ k) % XLogSegmentsPerXLogId ((2 : Int) ^ k)
      = p % 2 ^ 32 / ((2 : Int) ^ k).toNat := by
    unfold XLByteToSeg
    rw [intToU64_pow k hk, segsPerXLogId_pow k hk, toNat_pow]
    exact (fields_of_position p k hk).2
  have hhi : p / 2 ^ 32 < 2 ^ 32 := Nat.div_lt_of_lt_mul (by norm_num at hp ⊢; omega)
  have hlo : p % 2 ^ 32 / ((2 : Int) ^ k).toNat < 2 ^ 32 :=
    lt_of_le_of_lt (Nat.div_le_self _ _) (Nat.mod_lt _ (by norm_num))
  refine ⟨hlog, hseg, ?_, ?_, ?_⟩
  · rw [hlog]; exact wrap32_of_lt _ hhi
  · rw [hseg]; exact wrap32_of_lt _ hlo
  · rw [hname, hlog, hseg, wrap32_of_lt _ hhi, wrap32_of_lt _ hlo,
      fmt08X_eq_hexField tli htli, fmt08X_eq_hexField _ hhi, fmt08X_eq_hexField _ hlo]

theorem fileName_fields_of_position_witness :
    XLByteToSeg 95145455 16777216 / XLogSegmentsPerXLogId 16777216 = 95145455 / 2 ^ 32 ∧
    XLByteToSeg 95145455 16777216 % XLogSegmentsPerXLogId 16777216
      = 95145455 % 2 ^ 32 / (16777216 : Int).toNat ∧
    wrap32 (XLByteToSeg 95145455 16777216 / XLogSegmentsPerXLogId 16777216)
      = 95145455 / 2 ^ 32 ∧
    wrap32 (XLByteToSeg 95145455 16777216 % XLogSegmentsPerXLogId 16777216)
      = 95145455 % 2 ^ 32 / (16777216 : Int).toNat ∧
    XLogFileName 1 (XLByteToSeg 95145455 16777216) 16777216
      = fmt08X 1 ++ fmt08X (95145455 / 2 ^ 32)
          ++ fmt08X (95145455 % 2 ^ 32 / (16777216 : Int).toNat) :=
  fileName_fields_of_position 16777216 1 95145455 (by decide) (by decide) (by decide)

/-- C18: the four name tests exclude one another: for every string at most one
of `IsXLogFileName`, `IsPartialXLogFileName`, `IsTLHistoryFileName` and
`IsBackupHistoryFileName` is true. -/
theorem classifiers_exclusive (name : List Char) :
    (IsXLogFileName name).toNat + (IsPartialXLogFileName name).toNat
      + (IsTLHistoryFileName name).toNat + (IsBackupHistoryFileName name).toNat ≤ 1 ∧
    ¬ (IsXLogFileName name = true ∧ IsPartialXLogFileName name = true) ∧
    ¬ (IsXLogFileName name = true ∧ IsTLHistoryFileName name = true) ∧
    ¬ (IsXLogFileName name = true ∧ IsBackupHistoryFileName name = true) ∧
    ¬ (IsPartialXLogFileName name = true ∧ IsTLHistoryFileName name = true) ∧
    ¬ (IsPartialXLogFileName name = true ∧ IsBackupHistoryFileName name = true) ∧
    ¬ (IsTLHistoryFileName name = true ∧ IsBackupHistoryFileName name = true) := by
  have hXP : ¬ (IsXLogFileName name = true ∧ IsPartialXLogFileName name = true) := by
    rintro ⟨h1, h2⟩
    have := ((isXLogFileName_true_iff name).1 h1).1
    have := ((isPartialXLogFileName_true_iff name).1 h2).1
    omega
  have hXT : ¬ (IsXLogFileName name = true ∧ IsTLHistoryFileName name = true) := by
    rintro ⟨h1, h2⟩
    have := ((isXLogFileName_true_iff name).1 h1).1
    have := ((isTLHistoryFileName_true_iff name).1 h2).1
    omega
  have hXB : ¬ (IsXLogFileName name = true ∧ IsBackupHistoryFileName name = true) := by
    rintro ⟨h1, h2⟩
    have := ((isXLogFileName_true_iff name).1 h1).1
    have := ((isBackupHistoryFileName_true_iff name).1 h2).1
    omega
  have hPT : ¬ (IsPartialXLogFileName name = true ∧ IsTLHistoryFileName name = true) := by
    rintro ⟨h1, h2⟩
    have := ((isPartialXLogFileName_true_iff name).1 h1).1
    have := ((isTLHistoryFileName_true_iff name).1 h2).1
    omega
  have hPB : ¬ (IsPartialXLogFileName name = true ∧ IsBackupHistoryFileName name = true) := by
    rintro ⟨h1, h2⟩
    obtain ⟨hlen, -, hsuf⟩ := (isPartialXLogFileName_true_iff name).1 h1
    obtain ⟨-, -, -, hback⟩ := (isBackupHistoryFileName_true_iff name).1 h2
    rw [List.suffix_iff_eq_drop, hlen] at hback
    have h25 : name.drop 25 = (name.drop 24).drop 1 := by simp
    have h7 : (".backup".toList).length = 7 := rfl
    rw [h7, show 32 - 7 = 25 from rfl, h25, hsuf] at hback
    exact absurd hback (by decide)
  have hTB : ¬ (IsTLHistoryFileName name = true ∧ IsBackupHistoryFileName name = true) := by
    rintro ⟨h1, h2⟩
    have := ((isTLHistoryFileName_true_iff name).1 h1).1
    have := ((isBackupHistoryFileName_true_iff name).1 h2).1
    omega
  refine ⟨?_, hXP, hXT, hXB, hPT, hPB, hTB⟩
  cases hX : IsXLogFileName name <;> cases hP : IsPartialXLogFileName name <;>
    cases hT : IsTLHistoryFileName name <;> cases hB : IsBackupHistoryFileName name <;>
    simp_all

/-- C19: for a valid segment size and one 32-bit timeline ID, segment numbers
a < b below 2^32 * XLogSegmentsPerXLogId(size) have names in the same order:
`strcmp` of the name of a with the name of b is negative. -/
theorem fileName_strcmp_lt (size : Int) (tli a b : Nat)
    (hsize : IsValidWalSegSize size = true) (htli : tli < 2 ^ 32) (hab : a < b)
    (hb : b < 2 ^ 32 * XLogSegmentsPerXLogId size) :
    strcmp (XLogFileName tli a size) (XLogFileName tli b size) < 0 := by
  obtain ⟨hn4, hn⟩ := segsPerXLogId_bounds size hsize
  rw [xlogFileName_eq tli a size htli, xlogFileName_eq tli b size htli]
  generalize XLogSegmentsPerXLogId size = n at *
  have hnpos : 0 < n := by omega
  have hlb : b / n < 2 ^ 32 := Nat.div_lt_of_lt_mul (by rw [Nat.mul_comm]; exact hb)
  have hle : a / n ≤ b / n := Nat.div_le_div_right (by omega)
  have hsa : a % n < n := Nat.mod_lt _ hnpos
  have hsb : b % n < n := Nat.mod_lt _ hnpos
  rw [wrap32_of_lt (a / n) (by omega), wrap32_of_lt (b / n) hlb,
    wrap32_of_lt (a % n) (by omega), wrap32_of_lt (b % n) (by omega),
    List.append_assoc, List.append_assoc, strcmp_append_left]
  have h16 : (2 : Nat) ^ 32 = 16 ^ 8 := by norm_num
  rcases Nat.lt_or_eq_of_le hle with hlt | heq
  · rw [strcmp_hexField_lt 8 _ _ _ _ hlt (by rw [← h16]; exact hlb)]
    decide
  · have ha' := Nat.div_add_mod a n
    have hb' := Nat.div_add_mod b n
    rw [heq] at ha'
    have hlt : a % n < b % n := by omega
    have hfin := strcmp_hexField_lt 8 (a % n) (b % n) [] [] hlt (by rw [← h16]; omega)
    rw [List.append_nil, List.append_nil] at hfin
    rw [heq, strcmp_append_left, hfin]
    decide

theorem fileName_strcmp_lt_witness :
    strcmp (XLogFileName 1 255 16777216) (XLogFileName 1 256 16777216) < 0 :=
  fileName_strcmp_lt 16777216 1 255 256 (by decide) (by decide) (by decide) (by decide)

/-- C20 as stated fails in its last part: with 16 MiB segments the accepted name
00000001FFFFFFFFFFFFFFFF has a `seg` field of 0xFFFFFFFF, not below the 256
segments per log ID, and yet no other accepted name decodes to the pair it
decodes to. -/
theorem reencode_counterexample :
    IsValidWalSegSize 16777216 = true ∧
    IsXLogFileName "00000001FFFFFFFFFFFFFFFF".toList = true ∧
    XLogSegmentsPerXLogId 16777216 = 256 ∧
    (sscanf_08X_08X_08X "00000001FFFFFFFFFFFFFFFF".toList 0 0 0).seg = 4294967295 ∧
    ¬ ((sscanf_08X_08X_08X "00000001FFFFFFFFFFFFFFFF".toList 0 0 0).seg
        < XLogSegmentsPerXLogId 16777216) ∧
    ¬ ∃ other, other ≠ "00000001FFFFFFFFFFFFFFFF".toList ∧
        IsXLogFileName other = true ∧
        XLogFromFileName other 16777216 0 0 0
          = XLogFromFileName "00000001FFFFFFFFFFFFFFFF".toList 16777216 0 0 0 := by
  refine ⟨by decide, by decide, by decide, by decide, by decide, ?_⟩
  have hname : "00000001FFFFFFFFFFFFFFFF".toList
      = hexField 8 1 ++ hexField 8 4294967295 ++ hexField 8 4294967295 := by decide
  rw [hname]
  intro h
  have hnot := (other_name_iff 16777216 1 4294967295 4294967295 0 0 0 (by decide)
    (by decide) (by decide) (by decide) (by decide)).1 h
  exact hnot ⟨by decide, by decide⟩

/-- C20 amended: for a valid segment size and a name accepted by
`IsXLogFileName`, encoding the decoded pair gives the name back exactly when
the `seg` field of the name is below XLogSegmentsPerXLogId(size); when it is
not, a different accepted name decodes to the same pair, except when the `log`
field is 0xFFFFFFFF and `seg` + XLogSegmentsPerXLogId(size) reaches 2^32, where
no other accepted name does. -/
theorem reencode_spec (size : Int) (name : List Char) (t l s : Nat)
    (hsize : IsValidWalSegSize size = true) (hname : IsXLogFileName name = true) :
    (XLogFileName (XLogFromFileName name size t l s).1
        (XLogFromFileName name size t l s).2 size = name
      ↔ (sscanf_08X_08X_08X name t l s).seg < XLogSegmentsPerXLogId size) ∧
    (¬ ((sscanf_08X_08X_08X name t l s).seg < XLogSegmentsPerXLogId size) →
      ((∃ other, other ≠ name ∧ IsXLogFileName other = true ∧
          XLogFromFileName other size t l s = XLogFromFileName name size t l s)
        ↔ ¬ ((sscanf_08X_08X_08X name t l s).log = 2 ^ 32 - 1 ∧
              2 ^ 32 ≤ (sscanf_08X_08X_08X name t l s).seg + XLogSegmentsPerXLogId size))) := by
  obtain ⟨a, b, c, ha, hb, hc, rfl⟩ := exists_fields_of_isXLogFileName name hname
  obtain ⟨hsc, hdec⟩ := fromFileName_fields size a b c t l s hsize ha hb hc
  constructor
  · rw [hdec, hsc]
    exact reencode_fields_iff size a b c hsize ha hb hc
  · rw [hsc]
    intro hcn
    exact other_name_iff size a b c t l s hsize ha hb hc (by simpa using hcn)

theorem reencode_spec_witness :
    (XLogFileName (XLogFromFileName "000000010000000000000005".toList 16777216 7 8 9).1
        (XLogFromFileName "000000010000000000000005".toList 16777216 7 8 9).2 16777216
        = "000000010000000000000005".toList
      ↔ (sscanf_08X_08X_08X "000000010000000000000005".toList 7 8 9).seg
          < XLogSegmentsPerXLogId 16777216) ∧
    (¬ ((sscanf_08X_08X_08X "000000010000000000000005".toList 7 8 9).seg
          < XLogSegmentsPerXLogId 16777216) →
      ((∃ other, other ≠ "000000010000000000000005".toList ∧ IsXLogFileName other = true ∧
          XLogFromFileName other 16777216 7 8 9
            = XLogFromFileName "000000010000000000000005".toList 16777216 7 8 9)
        ↔ ¬ ((sscanf_08X_08X_08X "000000010000000000000005".toList 7 8 9).log = 2 ^ 32 - 1 ∧
              2 ^ 32 ≤ (sscanf_08X_08X_08X "000000010000000000000005".toList 7 8 9).seg
                + XLogSegmentsPerXLogId 16777216))) :=
  reencode_spec 16777216 "000000010000000000000005".toList 7 8 9 (by decide) (by decide)

end XLog
